import Mathlib

/-!
# Verification of the skill-import engine (`src/commands/skill_import.rs`)

Shallow embedding of the Import / Enrichment / Quality-Scoring / Sync-Fingerprint
engine of the `fgp-cli` repository, together with theorems settling the claims
about it.

Modelling conventions, stated once here:

* Rust `u32`/`usize` arithmetic in the scoring code never overflows (all scores
  are bounded by small constants), so machine integers are modelled by `Nat`;
  Rust saturating behaviour is irrelevant at the one subtraction site
  (`metadata_score -= 5` happens when the accumulator is at least 25).
* Rust `String` is modelled by Lean `String`; `str::len` (bytes) is modelled by
  `String.length` (characters), which agrees on the ASCII data appearing in all
  concrete inputs used here.
* `std::collections::hash_map::DefaultHasher` (SipHash 1-3) is modelled by the
  exact stream of values written to the hasher (a `List String`, respectively a
  list of component streams for the combined hash).  Rust's `Hash for str`
  writes the bytes plus a length terminator, so equal streams give equal
  hashes; every theorem below depends only on equality of streams, never on
  collision-freedom of the real 64-bit hash.
* `std::collections::HashMap` used during daemon extraction is modelled by an
  insertion-ordered association list.  The *iteration order* of a Rust
  `HashMap` (`into_iter`) is unspecified (randomly seeded per map), so the
  final conversion to a `Vec<ImportedDaemon>` is parameterised by a
  reordering function `iter`; theorems quantify over `iter` under the
  hypothesis that it permutes the entries, which is exactly what
  `HashMap::into_iter` guarantees.
* The external libraries `serde_yaml` / `serde_json` / `regex` and the
  filesystem reads are modelled as oracle parameters (`yamlParse`,
  `jsonParse`, the body scanners, `instrRead`): the code under test only
  branches on their results.
* The `chrono` clock is passed in as an explicit `now : String` parameter.
-/

/-- Split a character list at every occurrence of the separator character
(same semantics as `str::split` with a one-character pattern, and as Lean's
`String.splitOn` with a one-character separator; implemented by structural
recursion so that concrete witnesses evaluate inside the kernel). -/
def splitChar (c : Char) : List Char → List (List Char)
  | [] => [[]]
  | x :: xs =>
    let r := splitChar c xs
    if x = c then [] :: r
    else
      match r with
      | [] => [[x]]
      | y :: ys => (x :: y) :: ys

/-- `splitChar` lifted to strings. -/
def strSplitChar (c : Char) (s : String) : List String :=
  (splitChar c s.data).map List.asString

/-- ASCII whitespace test (the whitespace appearing in the modelled inputs). -/
def isWsChar (c : Char) : Bool :=
  c == ' ' || c == '\t' || c == '\n' || c == '\r'

/-- `str::trim`. -/
def strTrim (s : String) : String :=
  List.asString (((s.data.dropWhile isWsChar).reverse.dropWhile isWsChar).reverse)

/-- `str::trim_start`. -/
def strTrimLeft (s : String) : String :=
  List.asString (s.data.dropWhile isWsChar)

/-- `str::starts_with`. -/
def strStartsWith (s pre : String) : Bool :=
  pre.data.isPrefixOf s.data

/-- `str::ends_with`. -/
def strEndsWith (s suf : String) : Bool :=
  suf.data.reverse.isPrefixOf s.data.reverse

/-- Take the first `n` characters. -/
def strTake (s : String) (n : Nat) : String :=
  List.asString (s.data.take n)

/-- Drop the last `n` characters. -/
def strDropRight (s : String) (n : Nat) : String :=
  List.asString (s.data.take (s.data.length - n))

/-- Join with a separator (same semantics as `String.intercalate` /
`[T]::join`). -/
def strJoinSep (sep : String) : List String → String
  | [] => ""
  | [x] => x
  | x :: xs => x ++ sep ++ strJoinSep sep xs

/-- `str::to_lowercase` (ASCII). -/
def strToLower (s : String) : String :=
  List.asString (s.data.map Char.toLower)

/-- Worker for `strContains`: does `pat` occur in the list? -/
def hasSubstrAux (pat : List Char) : List Char → Bool
  | [] => pat.isEmpty
  | x :: xs => pat.isPrefixOf (x :: xs) || hasSubstrAux pat xs

/-- `str::contains` with a string pattern. -/
def strContains (s pat : String) : Bool :=
  hasSubstrAux pat.data s.data

/-- Rust `str::split_once` with a character separator. -/
def splitOnceChar (s : String) (c : Char) : Option (String × String) :=
  match strSplitChar c s with
  | [] => none
  | [_] => none
  | a :: rest => some (a, strJoinSep (List.asString [c]) rest)

/-- `Confidence` from `skill_import.rs`: confidence level for imported fields. -/
inductive Confidence where
  | High
  | Medium
  | Low
  | Unknown
  deriving DecidableEq, Repr

/-- Numeric rank of a confidence level realising the ordering
`High > Medium > Low > Unknown` used by the spec. -/
def Confidence.level : Confidence → Nat
  | .High => 3
  | .Medium => 2
  | .Low => 1
  | .Unknown => 0

/-- `FieldSource` from `skill_import.rs`: provenance of an imported field. -/
inductive FieldSource where
  | Frontmatter
  | Content
  | Filename
  | MethodExtraction
  | Registry
  | UserInput
  | Default
  deriving DecidableEq, Repr

/-- `ImportedField<T>`: an imported value with confidence metadata. -/
structure ImportedField (α : Type) where
  value : α
  confidence : Confidence
  source : FieldSource
  notes : Option String
  deriving DecidableEq, Repr

/-- `ImportedField::high`. -/
def ImportedField.high {α : Type} (value : α) (source : FieldSource) : ImportedField α :=
  { value := value, confidence := .High, source := source, notes := none }

/-- `ImportedField::medium`. -/
def ImportedField.medium {α : Type} (value : α) (source : FieldSource) : ImportedField α :=
  { value := value, confidence := .Medium, source := source, notes := none }

/-- `ImportedField::low`. -/
def ImportedField.low {α : Type} (value : α) (source : FieldSource) : ImportedField α :=
  { value := value, confidence := .Low, source := source, notes := none }

/-- `ImportedField::unknown`. -/
def ImportedField.unknownField {α : Type} (value : α) : ImportedField α :=
  { value := value, confidence := .Unknown, source := .Default,
    notes := some ("Could not determine value") }

/-- `ImportedField::with_note`. -/
def ImportedField.withNote {α : Type} (f : ImportedField α) (note : String) : ImportedField α :=
  { f with notes := some note }

/-- `ImportedDaemon`: an imported daemon dependency. -/
structure ImportedDaemon where
  name : ImportedField String
  version : ImportedField (Option String)
  optional : ImportedField Bool
  methods : List (ImportedField String)
  deriving DecidableEq, Repr

/-- `ImportedTriggers`: imported trigger configuration. -/
structure ImportedTriggers where
  keywords : List (ImportedField String) := []
  patterns : List (ImportedField String) := []
  commands : List (ImportedField String) := []
  deriving DecidableEq, Repr

/-- `ImportedAuthor`: imported author information. -/
structure ImportedAuthor where
  name : ImportedField String
  email : ImportedField (Option String)
  url : ImportedField (Option String)
  deriving DecidableEq, Repr

/-- `ImportFormat`: the source format being imported from. -/
inductive ImportFormat where
  | ClaudeCode
  | Cursor
  | Codex
  | Mcp
  | Zed
  | Windsurf
  | Gemini
  | Aider
  deriving DecidableEq, Repr

/-- `ImportFormat::to_key`. -/
def ImportFormat.toKey : ImportFormat → String
  | .ClaudeCode => "claude-code"
  | .Cursor => "cursor"
  | .Codex => "codex"
  | .Mcp => "mcp"
  | .Zed => "zed"
  | .Windsurf => "windsurf"
  | .Gemini => "gemini"
  | .Aider => "aider"

/-- `ImportedSkill`: the Unified Intermediate Representation (UIR).
`source_path` is the displayed path string; `import_timestamp` is the
`chrono` timestamp injected by the caller. -/
structure ImportedSkill where
  name : ImportedField String
  version : ImportedField String
  description : ImportedField String
  author : Option ImportedAuthor
  daemons : List ImportedDaemon
  instructions_content : ImportedField String
  triggers : ImportedTriggers
  source_format : ImportFormat
  source_path : String
  import_timestamp : String
  deriving DecidableEq, Repr

/-- `ManifestParam` from a daemon manifest (the JSON `default` value is kept
as its rendered text; no claim inspects it). -/
structure ManifestParam where
  name : String
  param_type : Option String
  required : Bool
  defaultVal : Option String
  description : Option String
  deriving DecidableEq, Repr

/-- `ManifestAuth` from a daemon manifest. -/
structure ManifestAuth where
  auth_type : Option String
  provider : Option String
  scopes : List String
  deriving DecidableEq, Repr

/-- `ManifestMethod` from a daemon manifest. -/
structure ManifestMethod where
  name : String
  description : Option String
  params : List ManifestParam
  deriving DecidableEq, Repr

/-- `DaemonManifest` (`{daemon}/manifest.json`). -/
structure DaemonManifest where
  name : String
  version : String
  description : String
  author : Option String
  license : Option String
  repository : Option String
  methods : List ManifestMethod
  auth : Option ManifestAuth
  platforms : List String
  deriving DecidableEq, Repr

/-- `DaemonRegistry`: the two lookup maps (`daemons` and `methods`), modelled
as association lists; lookup mirrors `HashMap::get` (first matching key). -/
structure DaemonRegistry where
  daemons : List (String × DaemonManifest)
  methods : List (String × (String × ManifestMethod))

/-- `DaemonRegistry::get_daemon`. -/
def DaemonRegistry.getDaemon (r : DaemonRegistry) (n : String) : Option DaemonManifest :=
  (r.daemons.find? (fun kv => kv.1 == n)).map (fun kv => kv.2)

/-- `DaemonRegistry::get_method`. -/
def DaemonRegistry.getMethod (r : DaemonRegistry) (methodName : String) :
    Option (String × ManifestMethod) :=
  (r.methods.find? (fun kv => kv.1 == methodName)).map (fun kv => kv.2)

/-- `EnrichmentData`: data added from the registry.  The Rust `HashMap` fields
are modelled as association lists with overwrite-on-insert semantics. -/
structure EnrichmentData where
  method_descriptions : List (String × String) := []
  method_params : List (String × List ManifestParam) := []
  auth_requirements : List (String × ManifestAuth) := []
  platform_support : List (String × List String) := []
  verified_daemons : List String := []
  unknown_daemons : List String := []
  deriving Repr

/-- `HashMap::insert` on an association list: overwrite the first matching
key, else append the new entry. -/
def insertHM {α : Type} (m : List (String × α)) (k : String) (v : α) : List (String × α) :=
  match m with
  | [] => [(k, v)]
  | (k₀, v₀) :: rest =>
    if k₀ == k then (k₀, v) :: rest else (k₀, v₀) :: insertHM rest k v

/-- The confidence/notes update applied to a method field inside
`enrich_skill` when `registry.get_method` finds the fully-qualified name. -/
def enrichMethod (registry : DaemonRegistry) (daemonName : String)
    (m : ImportedField String) : ImportedField String :=
  match registry.getMethod (daemonName ++ "." ++ m.value) with
  | some _ =>
    if m.confidence ≠ .High then
      { m with confidence := .High, notes := some ("Verified in daemon registry") }
    else m
  | none => m

/-- The per-daemon mutation performed by the loop body of `enrich_skill`:
upgrade the name confidence one step (Low to Medium, Medium to High) when the
registry knows the daemon, and enrich each method. -/
def enrichDaemon (registry : DaemonRegistry) (d : ImportedDaemon) : ImportedDaemon :=
  match registry.getDaemon d.name.value with
  | some _ =>
    let nameF :=
      if d.name.confidence = .Low then
        { d.name with confidence := .Medium,
                      notes := some ("Verified against daemon registry") }
      else if d.name.confidence = .Medium then
        { d.name with confidence := .High,
                      notes := some ("Confirmed in daemon registry") }
      else d.name
    { d with name := nameF,
             methods := d.methods.map (enrichMethod registry d.name.value) }
  | none => d

/-- The `EnrichmentData` accumulation of one iteration of the `enrich_skill`
loop (the pushes and inserts, in source order). -/
def enrichDataStep (registry : DaemonRegistry) (acc : EnrichmentData)
    (d : ImportedDaemon) : EnrichmentData :=
  let daemonName := d.name.value
  match registry.getDaemon daemonName with
  | some manifest =>
    let acc := { acc with verified_daemons := acc.verified_daemons ++ [daemonName] }
    let acc :=
      match manifest.auth with
      | some auth =>
        { acc with auth_requirements := insertHM acc.auth_requirements daemonName auth }
      | none => acc
    let acc :=
      if manifest.platforms ≠ [] then
        { acc with platform_support := insertHM acc.platform_support daemonName manifest.platforms }
      else acc
    let acc := d.methods.foldl
      (fun acc m =>
        let fullName := daemonName ++ "." ++ m.value
        match registry.getMethod fullName with
        | some mm =>
          let acc :=
            match mm.2.description with
            | some desc =>
              { acc with method_descriptions := insertHM acc.method_descriptions fullName desc }
            | none => acc
          if mm.2.params ≠ [] then
            { acc with method_params := insertHM acc.method_params fullName mm.2.params }
          else acc
        | none => acc)
      acc
    let knownMethods := d.methods.map (fun m => m.value)
    manifest.methods.foldl
      (fun acc mm =>
        let shortName := (strSplitChar '.' mm.name).getLastD mm.name
        if knownMethods.contains shortName then acc
        else
          match mm.description with
          | some desc =>
            { acc with method_descriptions :=
                insertHM acc.method_descriptions (daemonName ++ "." ++ shortName) desc }
          | none => acc)
      acc
  | none => { acc with unknown_daemons := acc.unknown_daemons ++ [daemonName] }

/-- `enrich_skill`: mutates the skill's daemons in place (modelled as a map,
since the loop body touches one daemon at a time) and returns the
`EnrichmentData` report. -/
def enrichSkill (skill : ImportedSkill) (registry : DaemonRegistry) :
    ImportedSkill × EnrichmentData :=
  ({ skill with daemons := skill.daemons.map (enrichDaemon registry) },
   skill.daemons.foldl (enrichDataStep registry) {})

/-- `QualityGrade` (A-F). -/
inductive QualityGrade where
  | A
  | B
  | C
  | D
  | F
  deriving DecidableEq, Repr

/-- `QualityGrade::from_score`: the fixed grade bands
(`90..=100 => A`, `80..=89 => B`, `70..=79 => C`, `60..=69 => D`, else F). -/
def QualityGrade.fromScore (score : Nat) : QualityGrade :=
  if 90 ≤ score ∧ score ≤ 100 then .A
  else if 80 ≤ score ∧ score ≤ 89 then .B
  else if 70 ≤ score ∧ score ≤ 79 then .C
  else if 60 ≤ score ∧ score ≤ 69 then .D
  else .F

/-- `QualityBreakdown`: the five category scores. -/
structure QualityBreakdown where
  metadata_score : Nat
  daemon_score : Nat
  instructions_score : Nat
  trigger_score : Nat
  config_score : Nat
  deriving DecidableEq, Repr

/-- `QualityBreakdown::overall`: weighted overall score
(metadata 25%, daemons 30%, instructions 25%, triggers 10%, config 10%),
integer division by 100. -/
def QualityBreakdown.overall (b : QualityBreakdown) : Nat :=
  (b.metadata_score * 25 + b.daemon_score * 30 + b.instructions_score * 25
    + b.trigger_score * 10 + b.config_score * 10) / 100

/-- `QualityAssessment` (grade, score, breakdown).  The issue and
recommendation lists built alongside the scores in `analyze_quality` do not
feed back into any score or the grade, so they are not modelled. -/
structure QualityAssessment where
  grade : QualityGrade
  score : Nat
  breakdown : QualityBreakdown
  deriving DecidableEq, Repr

/-- Metadata scoring section of `analyze_quality`: name (0-20), version
(0-15), description (0-25, minus 5 when a High-confidence description is
shorter than 20), author (0-20), plus the flat 10 license credit. -/
def metadataScore (skill : ImportedSkill) : Nat :=
  let nameS : Nat :=
    match skill.name.confidence with
    | .High => 20
    | .Medium => 15
    | .Low => 5
    | .Unknown => 5
  let versionS : Nat :=
    match skill.version.confidence with
    | .High => 15
    | .Medium => 10
    | .Low => 5
    | .Unknown => 0
  let descriptionS : Nat :=
    match skill.description.confidence with
    | .High => if skill.description.value.length < 20 then 25 - 5 else 25
    | .Medium => 15
    | .Low => 5
    | .Unknown => 5
  let authorS : Nat :=
    match skill.author with
    | some author =>
      if author.name.confidence = .High then 20
      else if author.name.value ≠ "Unknown" then 10
      else 2
    | none => 0
  nameS + versionS + descriptionS + authorS + 10

/-- Daemon scoring section of `analyze_quality`: zero when no daemons;
otherwise `min 30 (count*15)` + `min 30 (methods*5)` (when any methods) +
a verification bonus (enriched: `min (40*ratio/100) 40`; otherwise flat 20). -/
def daemonScore (skill : ImportedSkill) (enrichment : Option EnrichmentData) : Nat :=
  if skill.daemons.isEmpty then 0
  else
    let daemonCount := skill.daemons.length
    let methodCount := (skill.daemons.map (fun d => d.methods.length)).sum
    let base := min 30 (daemonCount * 15)
    let meth := if methodCount > 0 then min 30 (methodCount * 5) else 0
    let bonus :=
      match enrichment with
      | some e =>
        let verifiedRatio := e.verified_daemons.length * 100 / daemonCount
        min (40 * verifiedRatio / 100) 40
      | none => 20
    base + meth + bonus

/-- `true` iff the string contains the given pattern; models Rust
`str::contains`. -/
def containsSubstr (s pat : String) : Bool :=
  strContains s pat

/-- Instructions scoring section of `analyze_quality`: confidence points,
length-tier points, code-example bonus, capped at 100. -/
def instructionsScore (skill : ImportedSkill) : Nat :=
  let confS : Nat :=
    match skill.instructions_content.confidence with
    | .High => 50
    | .Medium => 35
    | .Low => 20
    | .Unknown => 5
  let len := skill.instructions_content.value.length
  let tierS : Nat := if len > 500 then 30 else if len > 200 then 20 else if len > 50 then 10 else 0
  let fenceS : Nat := if containsSubstr skill.instructions_content.value ("```") then 20 else 0
  min (confS + tierS + fenceS) 100

/-- Trigger scoring section of `analyze_quality`: per-category capped points,
zero when no triggers at all, capped at 100. -/
def triggerScore (skill : ImportedSkill) : Nat :=
  let triggerCount := skill.triggers.keywords.length + skill.triggers.patterns.length
    + skill.triggers.commands.length
  let s :=
    if triggerCount = 0 then 0
    else
      min (skill.triggers.keywords.length * 15) 45
        + min (skill.triggers.patterns.length * 20) 40
        + min (skill.triggers.commands.length * 10) 15
  min s 100

/-- Config/auth scoring section of `analyze_quality`: derives entirely from
enrichment; without enrichment it is the flat 20; capped at 100. -/
def configScore (skill : ImportedSkill) (enrichment : Option EnrichmentData) : Nat :=
  let s :=
    match enrichment with
    | some e =>
      let authS : Nat := if e.auth_requirements.isEmpty then 0 else 40
      let platS : Nat := if e.platform_support.isEmpty then 0 else 20
      let docS : Nat :=
        if e.method_descriptions.isEmpty then 0
        else
          let totalMethods := max ((skill.daemons.map (fun d => d.methods.length)).sum) 1
          let ratio := e.method_descriptions.length * 100 / totalMethods
          min (ratio * 40 / 100) 40
      authS + platS + docS
    | none => 20
  min s 100

/-- `analyze_quality`, restricted to the score/grade computation (the issue
and recommendation lists do not influence any score). -/
def analyzeQuality (skill : ImportedSkill) (enrichment : Option EnrichmentData) :
    QualityAssessment :=
  let breakdown : QualityBreakdown :=
    { metadata_score := metadataScore skill
      daemon_score := daemonScore skill enrichment
      instructions_score := instructionsScore skill
      trigger_score := triggerScore skill
      config_score := configScore skill enrichment }
  let score := breakdown.overall
  { grade := QualityGrade.fromScore score, score := score, breakdown := breakdown }

/-- `SkillFingerprint`: six component hashes plus the combined hash.  Each
`DefaultHasher` is modelled by the stream of strings written to it (see the
module docstring); the combined hasher receives the six component hashes. -/
structure SkillFingerprint where
  name_hash : List String
  description_hash : List String
  version_hash : List String
  daemons_hash : List String
  instructions_hash : List String
  triggers_hash : List String
  combined_hash : List (List String)
  timestamp : String
  deriving DecidableEq, Repr

/-- `SkillFingerprint::from_imported`: hash the name, description, version,
every daemon name followed by its method values, the instructions body, and
the trigger keywords followed by the trigger patterns (slash commands are not
hashed); combine the six component hashes. -/
def SkillFingerprint.fromImported (skill : ImportedSkill) (now : String) : SkillFingerprint :=
  let nameH := [skill.name.value]
  let descH := [skill.description.value]
  let versionH := [skill.version.value]
  let daemonsH := skill.daemons.flatMap
    (fun d => d.name.value :: d.methods.map (fun m => m.value))
  let instrH := [skill.instructions_content.value]
  let trigH := skill.triggers.keywords.map (fun k => k.value)
    ++ skill.triggers.patterns.map (fun p => p.value)
  { name_hash := nameH
    description_hash := descH
    version_hash := versionH
    daemons_hash := daemonsH
    instructions_hash := instrH
    triggers_hash := trigH
    combined_hash := [nameH, descH, versionH, daemonsH, instrH, trigH]
    timestamp := now }

/-- `ChangeType` of a field-level diff. -/
inductive ChangeType where
  | Unchanged
  | Added
  | Removed
  | Modified
  deriving DecidableEq, Repr

/-- `DiffSignificance` of a field-level diff. -/
inductive DiffSignificance where
  | Critical
  | Important
  | Minor
  | Trivial
  deriving DecidableEq, Repr

/-- `FieldDiff`: a specific field-level diff. -/
structure FieldDiff where
  field : String
  change_type : ChangeType
  original_value : Option String
  current_value : Option String
  significance : DiffSignificance
  deriving DecidableEq, Repr

/-- `SyncStatus` between import source and canonical skill. -/
inductive SyncStatus where
  | InSync
  | SourceNewer
  | CanonicalNewer
  | Diverged
  | Unknown
  deriving DecidableEq, Repr

/-- `SyncAction` to take (`Initialize` in the source is rendered `Init`). -/
inductive SyncAction where
  | None
  | Import
  | Export
  | Merge
  | Init
  deriving DecidableEq, Repr

/-- `SyncRecommendation`. -/
structure SyncRecommendation where
  action : SyncAction
  description : String
  commands : List String
  deriving DecidableEq, Repr

/-- `SyncAnalysis`: complete sync analysis result. -/
structure SyncAnalysis where
  status : SyncStatus
  diffs : List FieldDiff
  current_fingerprint : SkillFingerprint
  previous_fingerprint : Option SkillFingerprint
  recommendation : SyncRecommendation
  deriving DecidableEq, Repr

/-- `truncate_for_diff` (byte slicing modelled by character slicing). -/
def truncateForDiff (s : String) (maxLen : Nat) : String :=
  if s.length ≤ maxLen then s else (strTake s (maxLen - 3)) ++ "..."

/-- `Path::parent().display()` for a displayed path: everything before the
last `/` separator (empty for a bare filename, mirroring Rust where the
parent of a one-component relative path displays as the empty string). -/
def pathParentDisplay (p : String) : String :=
  let parts := strSplitChar '/' p
  if parts.length ≤ 1 then "" else strJoinSep ("/") parts.dropLast

/-- `analyze_sync`.  The `.sync.json` lookup is modelled by the
`prev : Option SkillFingerprint` parameter (`none` covers a missing
canonical path, a missing file, and an unreadable/unparsable file, exactly
the cases where the source produces `None`); `canonicalPath` is the displayed
output-directory path used in the recommendation command strings. -/
def analyzeSync (imported : ImportedSkill) (prev : Option SkillFingerprint)
    (canonicalPath : Option String) (now : String) : SyncAnalysis :=
  let current := SkillFingerprint.fromImported imported now
  let statusDiffs : SyncStatus × List FieldDiff :=
    match prev with
    | some p =>
      if p.combined_hash = current.combined_hash then (.InSync, [])
      else
        let ds : List FieldDiff :=
          (if p.name_hash ≠ current.name_hash then
            [{ field := "name", change_type := .Modified,
               original_value := some ("[previous]"),
               current_value := some imported.name.value,
               significance := .Critical }] else [])
          ++ (if p.description_hash ≠ current.description_hash then
            [{ field := "description", change_type := .Modified,
               original_value := some ("[changed]"),
               current_value := some (truncateForDiff imported.description.value 50),
               significance := .Minor }] else [])
          ++ (if p.version_hash ≠ current.version_hash then
            [{ field := "version", change_type := .Modified,
               original_value := some ("[previous version]"),
               current_value := some imported.version.value,
               significance := .Important }] else [])
          ++ (if p.daemons_hash ≠ current.daemons_hash then
            [{ field := "daemons", change_type := .Modified,
               original_value := some ("[changed]"),
               current_value := some (toString imported.daemons.length ++ " daemons"),
               significance := .Critical }] else [])
          ++ (if p.instructions_hash ≠ current.instructions_hash then
            [{ field := "instructions", change_type := .Modified,
               original_value := some ("[changed]"),
               current_value := some (toString imported.instructions_content.value.length ++ " chars"),
               significance := .Important }] else [])
          ++ (if p.triggers_hash ≠ current.triggers_hash then
            [{ field := "triggers", change_type := .Modified,
               original_value := some ("[changed]"),
               current_value := some (toString (imported.triggers.keywords.length
                 + imported.triggers.patterns.length) ++ " triggers"),
               significance := .Minor }] else [])
        (.SourceNewer, ds)
    | none => (.Unknown, [])
  let status := statusDiffs.1
  let recommendation : SyncRecommendation :=
    match status with
    | .InSync =>
      { action := .None,
        description := "Skill is in sync with source. No action needed.",
        commands := [] }
    | .SourceNewer =>
      { action := .Import,
        description := "Source has been updated. Re-import to update canonical skill.",
        commands := ["fgp skill import " ++ imported.source_path ++ " --output "
          ++ (canonicalPath.getD "./")] }
    | .CanonicalNewer =>
      { action := .Export,
        description := "Canonical skill has been updated. Re-export to update source.",
        commands := ["fgp skill export " ++ imported.source_format.toKey ++ " "
          ++ (canonicalPath.getD "./") ++ " --output "
          ++ (pathParentDisplay imported.source_path)] }
    | .Diverged =>
      { action := .Merge,
        description := "Both source and canonical have changed. Manual merge required.",
        commands := ["# Compare and manually merge changes",
          "diff " ++ imported.source_path ++ " "
            ++ (match canonicalPath with
                | some p => p ++ "/skill.yaml"
                | none => "./skill.yaml")] }
    | .Unknown =>
      { action := .Init,
        description := "No sync history. Import will initialize sync tracking.",
        commands := ["fgp skill import " ++ imported.source_path ++ " --output ./"] }
  { status := status
    diffs := statusDiffs.2
    current_fingerprint := current
    previous_fingerprint := prev
    recommendation := recommendation }

/-- `is_valid_daemon_name`: deny-list of generic words plus a minimum length
of 2. -/
def isValidDaemonName (name : String) : Bool :=
  let invalidNames : List String :=
    ["json", "yaml", "yml", "md", "txt", "toml", "xml", "html", "css", "js", "ts",
     "py", "rs", "go", "java", "sh", "bash", "zsh", "env", "log", "tmp", "bak",
     "credentials", "config", "settings", "example", "test", "spec", "mock",
     "src", "bin", "lib", "pkg", "dist", "build", "target", "node_modules"]
  if invalidNames.contains (strToLower name) then false
  else if name.length < 2 then false
  else true

/-- The association-list representation of the
`HashMap<String, Vec<ImportedField<String>>>` built during extraction. -/
abbrev DaemonMap := List (String × List (ImportedField String))

/-- `daemons.entry(k).or_default().push(v)`: append `v` to the entry for `k`,
creating the entry (at the end, insertion order) when absent. -/
def entryPush (m : DaemonMap) (k : String) (v : ImportedField String) : DaemonMap :=
  match m with
  | [] => [(k, [v])]
  | (k₀, vs) :: rest =>
    if k₀ = k then (k₀, vs ++ [v]) :: rest
    else (k₀, vs) :: entryPush rest k v

/-- `entry(k).or_default()` followed by a push guarded by
`!methods.iter().any(|m| m.value == v.value)`. -/
def entryPushIfAbsent (m : DaemonMap) (k : String) (v : ImportedField String) : DaemonMap :=
  match m with
  | [] => [(k, [v])]
  | (k₀, vs) :: rest =>
    if k₀ = k then
      if vs.any (fun f => f.value == v.value) then (k₀, vs) :: rest
      else (k₀, vs ++ [v]) :: rest
    else (k₀, vs) :: entryPushIfAbsent rest k v

/-- One step of the structured tools loop of `extract_daemons_from_tools`:
split `daemon.method`, filter by `is_valid_daemon_name`, push a
High/Frontmatter method field. -/
def insertTool (m : DaemonMap) (tool : String) : DaemonMap :=
  match splitOnceChar tool '.' with
  | some (daemonName, methodName) =>
    if isValidDaemonName daemonName then
      entryPush m daemonName (ImportedField.high methodName .Frontmatter)
    else m
  | none => m

/-- The regex scans over the body in `extract_daemons_from_tools`, modelled
as oracles: each field holds the capture pairs produced by the corresponding
pattern, in match order. -/
structure BodyScan where
  call : String → List (String × String)
  client : String → List (String × String)
  cli : String → List (String × String)
  tables : String → List (String × List String)

/-- `extract_daemons_from_tools` up to (but not including) the final
`HashMap::into_iter` conversion: structured tools first, then the
`fgp call`, `fgp-*-client`, `fgp-*` and method-table scans, each deduplicating
per daemon on the method value. -/
def extractDaemonMap (scan : BodyScan) (tools : List String) (body : String) : DaemonMap :=
  let m0 := tools.foldl insertTool []
  let m1 := (scan.call body).foldl
    (fun m p =>
      if isValidDaemonName p.1 then
        entryPushIfAbsent m p.1 (ImportedField.medium p.2 .MethodExtraction)
      else m) m0
  let m2 := (scan.client body).foldl
    (fun m p =>
      if isValidDaemonName p.1 then
        entryPushIfAbsent m p.1
          ((ImportedField.medium p.2 .MethodExtraction).withNote
            ("Extracted from fgp-*-client pattern"))
      else m) m1
  let m3 := (scan.cli body).foldl
    (fun m p =>
      if p.2 == "client" ∨ p.2 == "daemon" then m
      else if isValidDaemonName p.1 then
        entryPushIfAbsent m p.1
          ((ImportedField.low p.2 .MethodExtraction).withNote
            ("Extracted from fgp-* CLI pattern"))
      else m) m2
  (scan.tables body).foldl
    (fun m t =>
      if isValidDaemonName t.1 then
        t.2.foldl (fun m methodName =>
          entryPushIfAbsent m t.1 (ImportedField.medium methodName .Content)) m
      else m) m3

/-- The `(name, methods) -> ImportedDaemon` conversion at the end of
`extract_daemons_from_tools` (daemon-name confidence is High when any method
was structurally declared, else Medium). -/
def toImportedDaemon (kv : String × List (ImportedField String)) : ImportedDaemon :=
  { name :=
      { value := kv.1
        confidence := if kv.2.any (fun f => f.confidence == .High) then .High else .Medium
        source := .MethodExtraction
        notes := none }
    version := (ImportedField.low (some (">=1.0.0")) .Default).withNote
      ("Default version constraint")
    optional := ImportedField.low false .Default
    methods := kv.2 }

/-- `extract_daemons_from_tools`; `iter` models the unspecified
`HashMap::into_iter` ordering (a permutation of the entries). -/
def extractDaemonsFromTools (iter : DaemonMap → DaemonMap) (scan : BodyScan)
    (tools : List String) (body : String) : List ImportedDaemon :=
  (iter (extractDaemonMap scan tools body)).map toImportedDaemon

/-- `extract_triggers`; `kwScan` yields the (trimmed, quote-stripped) list
items found under a trigger section (empty when no such section exists), and
`cmdScan` yields the words captured by the `/command` regex, both in match
order. -/
def extractTriggers (fmTriggers : List String) (body : String)
    (kwScan : String → List String) (cmdScan : String → List String) : ImportedTriggers :=
  let keywords0 := fmTriggers.map (fun t => ImportedField.high t .Frontmatter)
  let keywords := (kwScan body).foldl
    (fun ks item =>
      if item ≠ "" ∧ ¬ ks.any (fun k => k.value == item) then
        ks ++ [ImportedField.medium item .Content]
      else ks) keywords0
  let commands := (cmdScan body).foldl
    (fun cs w =>
      let cmd := "/" ++ w
      if cmd.length < 3 then cs
      else if cs.any (fun c => c.value == cmd) then cs
      else cs ++ [ImportedField.medium cmd .Content]) []
  { keywords := keywords, patterns := [], commands := commands }

/-- `ClaudeCodeFrontmatter`: the YAML frontmatter schema of a SKILL.md. -/
structure ClaudeCodeFrontmatter where
  name : Option String := none
  description : Option String := none
  version : Option String := none
  tools : List String := []
  triggers : List String := []
  deriving DecidableEq, Repr

/-- `extract_yaml_frontmatter`: split a document into the YAML block between
the leading pair of `---` lines and the (left-trimmed) body; documents
without a well-delimited block yield an empty frontmatter and the whole
content as body.  This function never fails. -/
def extractYamlFrontmatter (content : String) : String × String :=
  match strSplitChar '\n' content with
  | [] => ("", content)
  | l₀ :: rest =>
    if strTrim l₀ ≠ "---" then ("", content)
    else
      match rest.findIdx? (fun l => strTrim l == "---") with
      | some idx =>
        (strJoinSep ("\n") (rest.take idx),
         strTrimLeft (strJoinSep ("\n") (rest.drop (idx + 1))))
      | none => ("", content)

/-- Helper of `extract_first_paragraph`: walk the lines, skipping leading
blank/heading/list lines, collecting the first run of plain lines. -/
def firstParaAux : List String → List String → List String
  | [], para => para
  | l :: ls, para =>
    let t := strTrim l
    if t.isEmpty ∨ strStartsWith t ("#") then
      if para.isEmpty then firstParaAux ls para else para
    else if strStartsWith t ("-") ∨ strStartsWith t ("*") then
      if para.isEmpty then firstParaAux ls para else para
    else firstParaAux ls (para ++ [t])

/-- `extract_first_paragraph`. -/
def extractFirstParagraph (body : String) : String :=
  strTrim (strJoinSep (" ") (firstParaAux (strSplitChar '\n' body) []))

/-- `path.parent().and_then(|p| p.file_name())` on a displayed path: the last
directory component, when there is one. -/
def parentDirName (path : String) : Option String :=
  match (strSplitChar '/' path).reverse with
  | _ :: p :: _ => if p = "" then none else some p
  | _ => none

/-- `Path::file_stem` on a file name: the portion before the last dot; a
name whose only dot is leading (hidden file) keeps the whole name. -/
def fileStem (fname : String) : String :=
  match strSplitChar '.' fname with
  | [] => fname
  | [_] => fname
  | parts =>
    let pre := strJoinSep (".") parts.dropLast
    if pre = "" then fname else pre

/-- Fuel-driven worker for `str::trim_end_matches` with a string pattern. -/
def stripSuffixAllAux (suf : String) : Nat → String → String
  | 0, s => s
  | n + 1, s =>
    if suf ≠ "" ∧ strEndsWith s suf then stripSuffixAllAux suf n (strDropRight s suf.length)
    else s

/-- `str::trim_end_matches(pat)`: repeatedly remove the trailing pattern. -/
def stripSuffixAll (s suf : String) : String :=
  stripSuffixAllAux suf s.length s

/-- `extract_name_from_path`: prefer the parent directory name (unless it is
a generic one), else the file stem with leading dots and known suffixes
stripped. -/
def extractNameFromPath (path : String) : String :=
  let genericDirs : List String := ["skills", "claude-code", "cursorrules", "rules", "."]
  let fromStem :=
    let fname := ((strSplitChar '/' path).getLastD path)
    if fname = "" then "unknown-skill"
    else
      stripSuffixAll
        (stripSuffixAll
          (stripSuffixAll (List.asString ((fileStem fname).data.dropWhile (fun c => c == '.')))
            (".cursorrules"))
          (".rules"))
        (".windsurf")
  match parentDirName path with
  | some p => if genericDirs.contains p then fromStem else p
  | none => fromStem

/-- `parse_claude_code`.  `yamlParse` is the `serde_yaml::from_str` oracle
(`none` = malformed YAML); note the source applies `.unwrap_or(default)` to
its result, so a malformed frontmatter silently degrades to the empty
frontmatter instead of failing.  This parser never returns an error. -/
def parseClaudeCode (yamlParse : String → Option ClaudeCodeFrontmatter)
    (scan : BodyScan) (iter : DaemonMap → DaemonMap)
    (kwScan cmdScan : String → List String)
    (path : String) (content : String) (now : String) : Except String ImportedSkill :=
  let fmBody := extractYamlFrontmatter content
  let frontmatter := fmBody.1
  let body := fmBody.2
  let fm : ClaudeCodeFrontmatter :=
    if frontmatter ≠ "" then (yamlParse frontmatter).getD {} else {}
  let name :=
    match fm.name with
    | some n => ImportedField.high n .Frontmatter
    | none =>
      let filename := (parentDirName path).getD "unknown-skill"
      (ImportedField.medium filename .Filename).withNote ("Inferred from directory name")
  let description :=
    match fm.description with
    | some d => ImportedField.high d .Frontmatter
    | none =>
      let firstPara := extractFirstParagraph body
      if firstPara ≠ "" then
        (ImportedField.medium firstPara .Content).withNote ("Extracted from first paragraph")
      else ImportedField.low (name.value ++ " skill") .Default
  let version :=
    match fm.version with
    | some v => ImportedField.high v .Frontmatter
    | none => (ImportedField.low "1.0.0" .Default).withNote ("Default version - please update")
  let daemons := extractDaemonsFromTools iter scan fm.tools body
  let triggers := extractTriggers fm.triggers body kwScan cmdScan
  .ok
    { name := name
      version := version
      description := description
      author := none
      daemons := daemons
      instructions_content := ImportedField.high body .Content
      triggers := triggers
      source_format := .ClaudeCode
      source_path := path
      import_timestamp := now }

/-- `GeminiManifest` (`gemini-extension.json`); capabilities are
`(name, description)` option pairs. -/
structure GeminiManifest where
  name : Option String := none
  display_name : Option String := none
  description : Option String := none
  version : Option String := none
  capabilities : List (Option String × Option String) := []
  trig_keywords : List String := []
  trig_patterns : List String := []
  instructions : Option String := none
  instructions_file : Option String := none
  deriving DecidableEq, Repr

/-- `parse_gemini`.  `jsonParse` is the `serde_json::from_str` oracle
(`none` = malformed JSON, the only failure of this parser); `parentSome`
models `path.parent().is_some()`; `instrRead` models the
exists-and-read of a referenced instructions file (`none` = file absent;
a read error inside the source is absorbed by an `unwrap_or_else` fallback
string, so it is part of the oracle's `some` result). -/
def parseGemini (jsonParse : String → Option GeminiManifest)
    (parentSome : Bool) (instrRead : String → Option String)
    (iter : DaemonMap → DaemonMap)
    (path : String) (content : String) (now : String) : Except String ImportedSkill :=
  match jsonParse content with
  | none => .error "Failed to parse Gemini manifest JSON"
  | some manifest =>
    let name :=
      match manifest.display_name <|> manifest.name with
      | some n => ImportedField.high n .Frontmatter
      | none =>
        (ImportedField.low (extractNameFromPath path) .Filename).withNote
          ("Inferred from path")
    let description :=
      match manifest.description with
      | some d => ImportedField.high d .Frontmatter
      | none => ImportedField.low (name.value ++ " skill") .Default
    let version :=
      match manifest.version with
      | some v => ImportedField.high v .Frontmatter
      | none => (ImportedField.low "1.0.0" .Default).withNote ("Default version - please update")
    let instructions_content :=
      match manifest.instructions with
      | some instr => ImportedField.high instr .Frontmatter
      | none =>
        match manifest.instructions_file with
        | some file =>
          if parentSome then
            match instrRead file with
            | some instr => ImportedField.high instr .Content
            | none =>
              (ImportedField.low
                ("# " ++ name.value ++ "\n\nInstructions file not found: " ++ file)
                .Default).withNote ("Referenced instructions file not found")
          else
            ImportedField.low ("# " ++ name.value ++ "\n\n[Instructions to be added]") .Default
        | none =>
          ImportedField.low ("# " ++ name.value ++ "\n\n[Instructions to be added]") .Default
    let m0 : DaemonMap := manifest.capabilities.foldl
      (fun m cap =>
        match cap.1 with
        | some capName =>
          match splitOnceChar capName '.' with
          | some (daemonName, methodName) =>
            if isValidDaemonName daemonName then
              entryPush m daemonName (ImportedField.high methodName .Frontmatter)
            else m
          | none => m
        | none => m) []
    let daemons : List ImportedDaemon := (iter m0).map
      (fun kv =>
        { name := ImportedField.high kv.1 .Frontmatter
          version := ImportedField.low (some (">=1.0.0")) .Default
          optional := ImportedField.low false .Default
          methods := kv.2 })
    let triggers : ImportedTriggers :=
      { keywords := manifest.trig_keywords.map (fun k => ImportedField.high k .Frontmatter)
        patterns := manifest.trig_patterns.map (fun p => ImportedField.high p .Frontmatter)
        commands := [] }
    .ok
      { name := name
        version := version
        description := description
        author := none
        daemons := daemons
        instructions_content := instructions_content
        triggers := triggers
        source_format := .Gemini
        source_path := path
        import_timestamp := now }

/-- A body scan where no regex pattern matches (plain prose body). -/
def emptyScan : BodyScan :=
  { call := fun _ => [], client := fun _ => [], cli := fun _ => [], tables := fun _ => [] }

/-- Sample manifest for the `mail` daemon (used by concrete witnesses). -/
def mailManifest : DaemonManifest :=
  { name := "mail", version := "1.0.0", description := "Mail daemon",
    author := none, license := none, repository := none,
    methods := [{ name := "send", description := some ("Send a message"), params := [] }],
    auth := none, platforms := [] }

/-- Sample registry knowing only the `mail` daemon. -/
def sampleRegistry : DaemonRegistry :=
  { daemons := [("mail", mailManifest)],
    methods := [("mail.send",
      ("mail", { name := "send", description := some ("Send a message"), params := [] }))] }

/-- Sample imported dependency on `mail` at Medium confidence. -/
def sampleDaemonMedium : ImportedDaemon :=
  { name := ImportedField.medium "mail" .MethodExtraction
    version := ImportedField.low (some (">=1.0.0")) .Default
    optional := ImportedField.low false .Default
    methods := [ImportedField.medium "send" .MethodExtraction] }

/-- Sample UIR with one Medium-confidence dependency (used by witnesses). -/
def sampleSkill : ImportedSkill :=
  { name := ImportedField.high "foo-bar" .Frontmatter
    version := ImportedField.low "1.0.0" .Default
    description := ImportedField.high "Foo Bar skill" .Frontmatter
    author := none
    daemons := [sampleDaemonMedium]
    instructions_content := ImportedField.high "Use the mail daemon." .Content
    triggers := {}
    source_format := .ClaudeCode
    source_path := "skills/foo-bar/SKILL.md"
    import_timestamp := "t0" }

/-- The decoded front matter of the Scenario A document. -/
def fmScenarioA : ClaudeCodeFrontmatter :=
  { name := some "foo-bar", description := some "Foo Bar skill", version := none,
    tools := ["mail.send"], triggers := [] }

/-- A concrete Scenario A document (front matter plus a short prose body). -/
def contentScenarioA : String :=
  "---\nname: foo-bar\ndescription: Foo Bar skill\ntools:\n  - mail.send\n---\nUse the mail daemon to send messages."

/-- The decoded front matter of a document declaring two daemons. -/
def fmTwoDaemons : ClaudeCodeFrontmatter :=
  { name := some "messaging", description := some "Messaging helpers for two services.",
    version := some "1.0.0", tools := ["gmail.send", "slack.post"], triggers := [] }

/-- A concrete document whose tools list declares two daemons. -/
def contentTwoDaemons : String :=
  "---\nname: messaging\n---\nSend messages."

/-- A document whose front-matter block is present but (per the oracle)
malformed YAML. -/
def badYamlContent : String :=
  "---\nname: [unclosed\n---\nBody text."

/-- A body scan in which the `fgp call` pattern also finds `mail.send`
(used for the deduplication witness). -/
def scanCallMailSend : BodyScan :=
  { call := fun _ => [("mail", "send")], client := fun _ => [], cli := fun _ => [],
    tables := fun _ => [] }

/-- The dependency on `gmail` produced by the two-daemon document. -/
def gmailDaemonC3 : ImportedDaemon :=
  toImportedDaemon ("gmail", [ImportedField.high "send" .Frontmatter])

/-- The dependency on `slack` produced by the two-daemon document. -/
def slackDaemonC3 : ImportedDaemon :=
  toImportedDaemon ("slack", [ImportedField.high "post" .Frontmatter])

/-- The UIR produced by parsing the two-daemon document, as a function of
the daemon order delivered by the hash map and of the import timestamp. -/
def skillTwoDaemons (ds : List ImportedDaemon) (t : String) : ImportedSkill :=
  { name := ImportedField.high "messaging" .Frontmatter
    version := ImportedField.high "1.0.0" .Frontmatter
    description := ImportedField.high "Messaging helpers for two services." .Frontmatter
    author := none
    daemons := ds
    instructions_content := ImportedField.high "Send messages." .Content
    triggers := { keywords := [], patterns := [], commands := [] }
    source_format := .ClaudeCode
    source_path := "skills/messaging/SKILL.md"
    import_timestamp := t }

/-- The UIR produced by the Claude Code parser on a Scenario A document
(front matter decoding to `fmScenarioA`), as a function of the body, the
extracted triggers and the path/timestamp. -/
def scenarioASkill (body : String) (trigs : ImportedTriggers) (path now : String) :
    ImportedSkill :=
  { name := ImportedField.high "foo-bar" .Frontmatter
    version := (ImportedField.low "1.0.0" .Default).withNote ("Default version - please update")
    description := ImportedField.high "Foo Bar skill" .Frontmatter
    author := none
    daemons := [toImportedDaemon ("mail", [ImportedField.high "send" .Frontmatter])]
    instructions_content := ImportedField.high body .Content
    triggers := trigs
    source_format := .ClaudeCode
    source_path := path
    import_timestamp := now }

/-- The key list of a daemon map. -/
def keysDM (m : DaemonMap) : List String :=
  m.map Prod.fst

/-- `HashMap::get` on the daemon map (first matching key). -/
def lookupDM (m : DaemonMap) (k : String) : Option (List (ImportedField String)) :=
  (m.find? (fun kv => kv.1 == k)).map (fun kv => kv.2)

/-- The method list stored for `k` (empty when the key is absent). -/
def entryListDM (m : DaemonMap) (k : String) : List (ImportedField String) :=
  (lookupDM m k).getD []

/-- The `daemon.method` pairs obtained from the structured tools list by
`split_once` (tools without a dot are skipped). -/
def structuredPairs (tools : List String) : List (String × String) :=
  tools.filterMap (fun t => splitOnceChar t '.')

/-- The entry for `svc` holds the method `meth` exactly once, at High
confidence (the dedup invariant maintained by the body scans). -/
def methodOnceHigh (m : DaemonMap) (svc meth : String) : Prop :=
  (entryListDM m svc).countP (fun f => f.value == meth) = 1 ∧
  ∀ f ∈ entryListDM m svc, f.value = meth → f.confidence = .High

theorem metadataScore_le (skill : ImportedSkill) : metadataScore skill ≤ 90 := by
  unfold metadataScore
  cases skill.name.confidence <;> cases skill.version.confidence <;>
    cases skill.description.confidence <;> cases skill.author <;>
    simp only [] <;> (try split_ifs) <;> omega

theorem daemonScore_le (skill : ImportedSkill) (e : Option EnrichmentData) :
    daemonScore skill e ≤ 100 := by
  unfold daemonScore
  split
  · omega
  · have h1 : min 30 (skill.daemons.length * 15) ≤ 30 := Nat.min_le_left _ _
    have h2 : (if ((skill.daemons.map (fun d => d.methods.length)).sum) > 0 then
        min 30 (((skill.daemons.map (fun d => d.methods.length)).sum) * 5) else 0) ≤ 30 := by
      split
      · exact Nat.min_le_left _ _
      · omega
    cases e with
    | none => simp only []; omega
    | some e =>
      have h3 : min (40 * (e.verified_daemons.length * 100 / skill.daemons.length) / 100) 40
          ≤ 40 := Nat.min_le_right _ _
      simp only []
      omega

theorem instructionsScore_le (skill : ImportedSkill) : instructionsScore skill ≤ 100 :=
  Nat.min_le_right _ _

theorem triggerScore_le (skill : ImportedSkill) : triggerScore skill ≤ 100 :=
  Nat.min_le_right _ _

theorem configScore_le (skill : ImportedSkill) (e : Option EnrichmentData) :
    configScore skill e ≤ 100 :=
  Nat.min_le_right _ _

theorem overall_le (b : QualityBreakdown) (h1 : b.metadata_score ≤ 100)
    (h2 : b.daemon_score ≤ 100) (h3 : b.instructions_score ≤ 100)
    (h4 : b.trigger_score ≤ 100) (h5 : b.config_score ≤ 100) : b.overall ≤ 100 := by
  unfold QualityBreakdown.overall
  have : b.metadata_score * 25 + b.daemon_score * 30 + b.instructions_score * 25
      + b.trigger_score * 10 + b.config_score * 10 ≤ 10000 := by omega
  omega

theorem fromScore_bands (s : Nat) (hs : s ≤ 100) :
    (QualityGrade.fromScore s = .A ↔ 90 ≤ s) ∧
    (QualityGrade.fromScore s = .B ↔ 80 ≤ s ∧ s < 90) ∧
    (QualityGrade.fromScore s = .C ↔ 70 ≤ s ∧ s < 80) ∧
    (QualityGrade.fromScore s = .D ↔ 60 ≤ s ∧ s < 70) ∧
    (QualityGrade.fromScore s = .F ↔ s < 60) := by
  unfold QualityGrade.fromScore
  split_ifs <;> simp_all <;> omega

theorem analyzeQuality_breakdown (skill : ImportedSkill) (e : Option EnrichmentData) :
    (analyzeQuality skill e).breakdown =
      { metadata_score := metadataScore skill
        daemon_score := daemonScore skill e
        instructions_score := instructionsScore skill
        trigger_score := triggerScore skill
        config_score := configScore skill e } := rfl

theorem analyzeQuality_score (skill : ImportedSkill) (e : Option EnrichmentData) :
    (analyzeQuality skill e).score = (analyzeQuality skill e).breakdown.overall := rfl

theorem analyzeQuality_grade (skill : ImportedSkill) (e : Option EnrichmentData) :
    (analyzeQuality skill e).grade = QualityGrade.fromScore (analyzeQuality skill e).score := rfl

/-- C1: For every UIR and optional enrichment report, quality assessment
produces five category scores each in [0, 100]; the overall score is the
weighted combination metadata 25% + dependencies 30% + instructions 25% +
triggers 10% + config/auth 10% (sum of score*weight, integer-divided by
100); and the letter grade follows the fixed bands A >= 90, B >= 80,
C >= 70, D >= 60, F below 60. -/
theorem C1_quality_scores_bounded_weighted_graded (skill : ImportedSkill)
    (enrichment : Option EnrichmentData) :
    (analyzeQuality skill enrichment).breakdown.metadata_score ≤ 100 ∧
    (analyzeQuality skill enrichment).breakdown.daemon_score ≤ 100 ∧
    (analyzeQuality skill enrichment).breakdown.instructions_score ≤ 100 ∧
    (analyzeQuality skill enrichment).breakdown.trigger_score ≤ 100 ∧
    (analyzeQuality skill enrichment).breakdown.config_score ≤ 100 ∧
    (analyzeQuality skill enrichment).score =
      ((analyzeQuality skill enrichment).breakdown.metadata_score * 25
        + (analyzeQuality skill enrichment).breakdown.daemon_score * 30
        + (analyzeQuality skill enrichment).breakdown.instructions_score * 25
        + (analyzeQuality skill enrichment).breakdown.trigger_score * 10
        + (analyzeQuality skill enrichment).breakdown.config_score * 10) / 100 ∧
    (analyzeQuality skill enrichment).score ≤ 100 ∧
    ((analyzeQuality skill enrichment).grade = .A ↔ 90 ≤ (analyzeQuality skill enrichment).score) ∧
    ((analyzeQuality skill enrichment).grade = .B ↔
      80 ≤ (analyzeQuality skill enrichment).score ∧ (analyzeQuality skill enrichment).score < 90) ∧
    ((analyzeQuality skill enrichment).grade = .C ↔
      70 ≤ (analyzeQuality skill enrichment).score ∧ (analyzeQuality skill enrichment).score < 80) ∧
    ((analyzeQuality skill enrichment).grade = .D ↔
      60 ≤ (analyzeQuality skill enrichment).score ∧ (analyzeQuality skill enrichment).score < 70) ∧
    ((analyzeQuality skill enrichment).grade = .F ↔
      (analyzeQuality skill enrichment).score < 60) := by
  rw [analyzeQuality_grade, analyzeQuality_score, analyzeQuality_breakdown]
  simp only [QualityBreakdown.overall]
  have hm := metadataScore_le skill
  have hd := daemonScore_le skill enrichment
  have hi := instructionsScore_le skill
  have ht := triggerScore_le skill
  have hc := configScore_le skill enrichment
  have hb : (metadataScore skill * 25 + daemonScore skill enrichment * 30
      + instructionsScore skill * 25 + triggerScore skill * 10
      + configScore skill enrichment * 10) / 100 ≤ 100 := by
    have : metadataScore skill * 25 + daemonScore skill enrichment * 30
        + instructionsScore skill * 25 + triggerScore skill * 10
        + configScore skill enrichment * 10 ≤ 10000 := by omega
    omega
  have hbands := fromScore_bands _ hb
  exact ⟨by omega, hd, hi, ht, hc, trivial, hb, hbands.1, hbands.2.1, hbands.2.2.1,
    hbands.2.2.2.1, hbands.2.2.2.2⟩

theorem Confidence.level_le_three (c : Confidence) : c.level ≤ 3 := by
  cases c <;> simp [Confidence.level]

theorem enrichMethod_monotone (r : DaemonRegistry) (dn : String) (m : ImportedField String) :
    m.confidence.level ≤ (enrichMethod r dn m).confidence.level := by
  unfold enrichMethod
  split
  · split_ifs
    · exact Confidence.level_le_three _
    · exact le_refl _
  · exact le_refl _

theorem enrichDaemon_name_monotone (r : DaemonRegistry) (d : ImportedDaemon) :
    d.name.confidence.level ≤ (enrichDaemon r d).name.confidence.level := by
  unfold enrichDaemon
  split
  · simp only []
    split_ifs with h1 h2
    · rw [h1]; simp [Confidence.level]
    · rw [h2]; simp [Confidence.level]
    · exact le_refl _
  · exact le_refl _

theorem enrichDaemon_methods_map (r : DaemonRegistry) (d : ImportedDaemon) :
    (enrichDaemon r d).methods = d.methods.map (enrichMethod r d.name.value)
    ∨ (enrichDaemon r d).methods = d.methods := by
  unfold enrichDaemon
  split
  · exact Or.inl rfl
  · exact Or.inr rfl

/-- C2: Enrichment never lowers the confidence of any field of the UIR: for
every UIR and registry, and for every dependency, the confidence of the
dependency's name and of each of its methods after `enrich_skill` is at
least the confidence before, under High > Medium > Low > Unknown.  The
first conjunct ties the per-dependency statement to `enrich_skill`
(its daemon list is the pointwise image under `enrichDaemon`). -/
theorem C2_enrichment_confidence_monotone (skill : ImportedSkill) (registry : DaemonRegistry) :
    (enrichSkill skill registry).1.daemons = skill.daemons.map (enrichDaemon registry) ∧
    ∀ d : ImportedDaemon,
      d.name.confidence.level ≤ (enrichDaemon registry d).name.confidence.level ∧
      (enrichDaemon registry d).methods.length = d.methods.length ∧
      ∀ j (hj : j < d.methods.length) (hj2 : j < (enrichDaemon registry d).methods.length),
        (d.methods[j]).confidence.level ≤ ((enrichDaemon registry d).methods[j]).confidence.level := by
  refine ⟨rfl, fun d => ⟨enrichDaemon_name_monotone registry d, ?_, ?_⟩⟩
  · rcases enrichDaemon_methods_map registry d with h | h
    · rw [h]; simp
    · rw [h]
  · intro j hj hj2
    rcases enrichDaemon_methods_map registry d with h | h
    · have : ((enrichDaemon registry d).methods)[j] =
          enrichMethod registry d.name.value (d.methods[j]) := by
        simp only [h]
        exact List.getElem_map _
      rw [this]
      exact enrichMethod_monotone _ _ _
    · simp only [h]
      exact le_refl _

/-- Witness for C2 at a concrete skill, registry and index. -/
theorem C2_enrichment_confidence_monotone_witness :
    sampleDaemonMedium.methods.length = 1 ∧
    (sampleDaemonMedium.methods.get ⟨0, by decide⟩).confidence.level ≤
      ((enrichDaemon sampleRegistry sampleDaemonMedium).methods.get
        ⟨0, by decide⟩).confidence.level := by
  refine ⟨by decide, ?_⟩
  exact (((C2_enrichment_confidence_monotone sampleSkill sampleRegistry).2
    sampleDaemonMedium).2.2) 0 (by decide) (by decide)

/-- C9: For every declared dependency whose name matches a registry entry,
enrichment raises the name's confidence by exactly one level along the chain
Low -> Medium -> High and never skips a level (in particular never Low
directly to High in a single pass; High stays High and an Unknown name —
outside the chain — is left untouched), while every method found in the
registry is marked High confidence.  Stated via `enrich_skill`, whose daemon
list is the pointwise image under `enrichDaemon`. -/
theorem C9_enrichment_single_step (skill : ImportedSkill) (registry : DaemonRegistry)
    (d : ImportedDaemon) (hd : d ∈ skill.daemons)
    (hreg : (registry.getDaemon d.name.value).isSome = true) :
    enrichDaemon registry d ∈ (enrichSkill skill registry).1.daemons ∧
    (d.name.confidence = .Low → (enrichDaemon registry d).name.confidence = .Medium) ∧
    (d.name.confidence = .Medium → (enrichDaemon registry d).name.confidence = .High) ∧
    (d.name.confidence = .High → (enrichDaemon registry d).name.confidence = .High) ∧
    (d.name.confidence = .Unknown → (enrichDaemon registry d).name.confidence = .Unknown) ∧
    ¬ (d.name.confidence = .Low ∧ (enrichDaemon registry d).name.confidence = .High) ∧
    ∀ j (hj : j < d.methods.length) (hj2 : j < (enrichDaemon registry d).methods.length),
      (registry.getMethod (d.name.value ++ "." ++ (d.methods[j]).value)).isSome = true →
      ((enrichDaemon registry d).methods[j]).confidence = .High := by
  obtain ⟨manifest, hm⟩ := Option.isSome_iff_exists.mp hreg
  have hmem : enrichDaemon registry d ∈ (enrichSkill skill registry).1.daemons := by
    show enrichDaemon registry d ∈ skill.daemons.map (enrichDaemon registry)
    exact List.mem_map_of_mem _ hd
  have hname : (enrichDaemon registry d).name.confidence =
      (if d.name.confidence = .Low then .Medium
       else if d.name.confidence = .Medium then .High
       else d.name.confidence) := by
    unfold enrichDaemon
    rw [hm]
    simp only []
    split_ifs <;> rfl
  have hmeth : (enrichDaemon registry d).methods =
      d.methods.map (enrichMethod registry d.name.value) := by
    unfold enrichDaemon
    rw [hm]
  refine ⟨hmem, ?_, ?_, ?_, ?_, ?_, ?_⟩
  · intro h; rw [hname, h]; rfl
  · intro h; rw [hname, h]; rfl
  · intro h; rw [hname, h]; rfl
  · intro h; rw [hname, h]; rfl
  · rintro ⟨h1, h2⟩; rw [hname, h1] at h2; exact absurd h2 (by decide)
  · intro j hj hj2 hlook
    have hj3 : ((enrichDaemon registry d).methods)[j] =
        enrichMethod registry d.name.value (d.methods[j]) := by
      simp only [hmeth]
      exact List.getElem_map _
    rw [hj3]
    unfold enrichMethod
    obtain ⟨mm, hmm⟩ := Option.isSome_iff_exists.mp hlook
    rw [hmm]
    simp only []
    split_ifs with hc
    · rfl
    · simpa using hc

/-- Witness for C9 at a concrete skill, registry and dependency. -/
theorem C9_enrichment_single_step_witness :
    sampleDaemonMedium.name.confidence = .Medium ∧
    (enrichDaemon sampleRegistry sampleDaemonMedium).name.confidence = .High ∧
    ((enrichDaemon sampleRegistry sampleDaemonMedium).methods.get
      ⟨0, by decide⟩).confidence = .High := by
  have h := C9_enrichment_single_step sampleSkill sampleRegistry sampleDaemonMedium
    (by decide) (by decide)
  refine ⟨by decide, h.2.2.1 (by decide), ?_⟩
  exact h.2.2.2.2.2.2 0 (by decide) (by decide) (by decide)

/-- C10: The fingerprint ignores slash-command triggers: for every pair of
UIRs identical except for the commands list of the trigger set (and the
timestamp of the import), `SkillFingerprint::from_imported` produces equal values
for all six component hashes and the combined hash, and sync analysis
against the stored fingerprint of the other UIR reports in-sync with zero
diffs and no action. -/
theorem C10_fingerprint_ignores_commands (skill : ImportedSkill)
    (cmds : List (ImportedField String)) (t1 t2 : String) (cp : Option String) :
    let skill2 : ImportedSkill :=
      { skill with triggers := { skill.triggers with commands := cmds } }
    (SkillFingerprint.fromImported skill2 t2).name_hash
        = (SkillFingerprint.fromImported skill t1).name_hash ∧
    (SkillFingerprint.fromImported skill2 t2).description_hash
        = (SkillFingerprint.fromImported skill t1).description_hash ∧
    (SkillFingerprint.fromImported skill2 t2).version_hash
        = (SkillFingerprint.fromImported skill t1).version_hash ∧
    (SkillFingerprint.fromImported skill2 t2).daemons_hash
        = (SkillFingerprint.fromImported skill t1).daemons_hash ∧
    (SkillFingerprint.fromImported skill2 t2).instructions_hash
        = (SkillFingerprint.fromImported skill t1).instructions_hash ∧
    (SkillFingerprint.fromImported skill2 t2).triggers_hash
        = (SkillFingerprint.fromImported skill t1).triggers_hash ∧
    (SkillFingerprint.fromImported skill2 t2).combined_hash
        = (SkillFingerprint.fromImported skill t1).combined_hash ∧
    (analyzeSync skill2 (some (SkillFingerprint.fromImported skill t1)) cp t2).status
        = .InSync ∧
    (analyzeSync skill2 (some (SkillFingerprint.fromImported skill t1)) cp t2).diffs = [] ∧
    (analyzeSync skill2 (some (SkillFingerprint.fromImported skill t1)) cp t2).recommendation.action = SyncAction.None := by
  intro skill2
  have hcomb : (SkillFingerprint.fromImported skill2 t2).combined_hash
      = (SkillFingerprint.fromImported skill t1).combined_hash := rfl
  refine ⟨rfl, rfl, rfl, rfl, rfl, rfl, hcomb, ?_, ?_, ?_⟩ <;>
    simp [analyzeSync, hcomb]

set_option maxHeartbeats 2000000 in
/-- C6: Sync classification is a total case analysis: no stored prior
fingerprint gives status Unknown (first import) with no diffs and the
initialize-tracking recommendation; a prior fingerprint with equal combined
hash gives in-sync with an empty diff list and no action; differing combined
hashes give source-newer with the re-import recommendation, and one
field-level Modified diff per component hash that differs, with significance
Critical for name and daemons, Important for version and instructions, and
Minor for description and triggers. -/
theorem C6_sync_classification (skill : ImportedSkill) (prev : Option SkillFingerprint)
    (cp : Option String) (now : String) :
    let current := SkillFingerprint.fromImported skill now
    let a := analyzeSync skill prev cp now
    (prev = none →
      a.status = .Unknown ∧ a.diffs = [] ∧ a.recommendation.action = .Init) ∧
    (∀ p, prev = some p → p.combined_hash = current.combined_hash →
      a.status = .InSync ∧ a.diffs = [] ∧ a.recommendation.action = SyncAction.None) ∧
    (∀ p, prev = some p → p.combined_hash ≠ current.combined_hash →
      a.status = .SourceNewer ∧ a.recommendation.action = .Import ∧
      ((∃ d ∈ a.diffs, d.field = "name") ↔ p.name_hash ≠ current.name_hash) ∧
      ((∃ d ∈ a.diffs, d.field = "description") ↔ p.description_hash ≠ current.description_hash) ∧
      ((∃ d ∈ a.diffs, d.field = "version") ↔ p.version_hash ≠ current.version_hash) ∧
      ((∃ d ∈ a.diffs, d.field = "daemons") ↔ p.daemons_hash ≠ current.daemons_hash) ∧
      ((∃ d ∈ a.diffs, d.field = "instructions") ↔ p.instructions_hash ≠ current.instructions_hash) ∧
      ((∃ d ∈ a.diffs, d.field = "triggers") ↔ p.triggers_hash ≠ current.triggers_hash) ∧
      (∀ d ∈ a.diffs, d.change_type = .Modified ∧
        (d.field = "name" → d.significance = .Critical) ∧
        (d.field = "description" → d.significance = .Minor) ∧
        (d.field = "version" → d.significance = .Important) ∧
        (d.field = "daemons" → d.significance = .Critical) ∧
        (d.field = "instructions" → d.significance = .Important) ∧
        (d.field = "triggers" → d.significance = .Minor) ∧
        (d.field = "name" ∨ d.field = "description" ∨ d.field = "version" ∨
         d.field = "daemons" ∨ d.field = "instructions" ∨ d.field = "triggers")) ∧
      a.diffs.length =
        ((if p.name_hash ≠ current.name_hash then 1 else 0)
          + (if p.description_hash ≠ current.description_hash then 1 else 0)
          + (if p.version_hash ≠ current.version_hash then 1 else 0)
          + (if p.daemons_hash ≠ current.daemons_hash then 1 else 0)
          + (if p.instructions_hash ≠ current.instructions_hash then 1 else 0)
          + (if p.triggers_hash ≠ current.triggers_hash then 1 else 0))) := by
  intro current a
  refine ⟨?_, ?_, ?_⟩
  · rintro rfl
    refine ⟨rfl, rfl, rfl⟩
  · rintro p rfl heq
    refine ⟨?_, ?_, ?_⟩ <;> simp [a, analyzeSync, heq]
  · rintro p rfl hne
    have h0 : (analyzeSync skill (some p) cp now).status = .SourceNewer := by
      simp [analyzeSync, hne]
    have h1 : (analyzeSync skill (some p) cp now).recommendation.action = .Import := by
      simp [analyzeSync, hne]
    have hd : a.diffs =
        (if p.name_hash = current.name_hash then [] else
          [{ field := "name", change_type := .Modified,
             original_value := some ("[previous]"),
             current_value := some skill.name.value,
             significance := .Critical }])
        ++ (if p.description_hash = current.description_hash then [] else
          [{ field := "description", change_type := .Modified,
             original_value := some ("[changed]"),
             current_value := some (truncateForDiff skill.description.value 50),
             significance := .Minor }])
        ++ (if p.version_hash = current.version_hash then [] else
          [{ field := "version", change_type := .Modified,
             original_value := some ("[previous version]"),
             current_value := some skill.version.value,
             significance := .Important }])
        ++ (if p.daemons_hash = current.daemons_hash then [] else
          [{ field := "daemons", change_type := .Modified,
             original_value := some ("[changed]"),
             current_value := some (toString skill.daemons.length ++ " daemons"),
             significance := .Critical }])
        ++ (if p.instructions_hash = current.instructions_hash then [] else
          [{ field := "instructions", change_type := .Modified,
             original_value := some ("[changed]"),
             current_value := some (toString skill.instructions_content.value.length ++ " chars"),
             significance := .Important }])
        ++ (if p.triggers_hash = current.triggers_hash then [] else
          [{ field := "triggers", change_type := .Modified,
             original_value := some ("[changed]"),
             current_value := some (toString (skill.triggers.keywords.length
               + skill.triggers.patterns.length) ++ " triggers"),
             significance := .Minor }]) := by
      simp [a, current, analyzeSync, hne]
    refine ⟨h0, h1, ?_⟩
    rw [hd]
    split_ifs <;> simp_all

/-- Witness for C6 at a concrete skill with no stored fingerprint. -/
theorem C6_sync_classification_witness :
    (analyzeSync sampleSkill none none "t1").status = .Unknown ∧
    (analyzeSync sampleSkill none none "t1").diffs = [] ∧
    (analyzeSync sampleSkill none none "t1").recommendation.action = .Init :=
  (C6_sync_classification sampleSkill none none "t1").1 rfl

/-- C4 counterexample: the Claude Code parser does NOT return an error when
the structured portion is present but malformed.  With the YAML oracle
reporting the (non-empty) front-matter block as unparsable, `parse_claude_code`
still succeeds, because the source wraps `serde_yaml::from_str` in
`.unwrap_or(default)`. -/
theorem C4_counterexample_malformed_yaml_no_error :
    (extractYamlFrontmatter badYamlContent).1 ≠ "" ∧
    (parseClaudeCode (fun _ => none) emptyScan id (fun _ => []) (fun _ => [])
      "skills/bad/SKILL.md" badYamlContent "t0").isOk = true := by
  exact ⟨by decide, by decide⟩

/-- C4 amended: the Gemini JSON parser fails exactly when the embedded JSON
is malformed (and absence of optional fields never makes it fail, since any
successfully decoded manifest yields a UIR), while the Claude Code parser
never fails at all — a malformed YAML front matter is silently replaced by
the empty front matter and the import continues with lower-confidence
fields. -/
theorem C4_amended_parser_failure_semantics :
    (∀ (yamlParse : String → Option ClaudeCodeFrontmatter) (scan : BodyScan)
      (iter : DaemonMap → DaemonMap) (kwScan cmdScan : String → List String)
      (path content now : String),
      (parseClaudeCode yamlParse scan iter kwScan cmdScan path content now).isOk = true) ∧
    (∀ (jsonParse : String → Option GeminiManifest) (parentSome : Bool)
      (instrRead : String → Option String) (iter : DaemonMap → DaemonMap)
      (path content now : String),
      (parseGemini jsonParse parentSome instrRead iter path content now).isOk
        = (jsonParse content).isSome) := by
  constructor
  · intro yamlParse scan iter kwScan cmdScan path content now
    rfl
  · intro jsonParse parentSome instrRead iter path content now
    cases h : jsonParse content <;> simp [parseGemini, h, Except.isOk, Except.toBool]

theorem fromScore_below_seventy (s : Nat) (h : s < 70) :
    QualityGrade.fromScore s = .D ∨ QualityGrade.fromScore s = .F := by
  unfold QualityGrade.fromScore
  split_ifs <;> simp_all <;> omega

/-- C5 counterexample: a concrete Scenario A document (front matter
`name: foo-bar`, `description: Foo Bar skill`, `tools: [mail.send]`, with a
non-empty prose body and no body pattern matches) parses to a UIR with a
High-confidence name and the single `mail`/`send` dependency as the claim
says, but its quality score is 40 and its grade is F — not B or better. -/
theorem C5_counterexample_scenarioA_grade_F :
    ((parseClaudeCode (fun _ => some fmScenarioA) emptyScan id (fun _ => []) (fun _ => [])
        "skills/foo-bar/SKILL.md" contentScenarioA "t0").toOption.map
      (fun s => (s.name.confidence, s.daemons, (analyzeQuality s none).score,
        (analyzeQuality s none).grade, s.instructions_content.value.isEmpty)))
    = some (.High, [toImportedDaemon ("mail", [ImportedField.high "send" .Frontmatter])],
        40, .F, false) := by decide

/-- C5 amended: for a structured-front-matter document whose front matter
decodes to `name: foo-bar`, `description: "Foo Bar skill"`, tools
`["mail.send"]`, and whose body triggers no service-pattern matches, the
Claude Code parser produces a UIR with name confidence High and exactly one
dependency named `mail` with one method `send` at High confidence; but for
every non-empty instructions body the overall score is at most 62, so the
overall grade is D or F — never B or better (the claimed "grade >= B" is
unreachable: metadata is capped at 55 by the short description, the missing
version and the absent author, and the dependency category gets 40 without
enrichment). -/
theorem C5_amended_scenarioA (yamlParse : String → Option ClaudeCodeFrontmatter)
    (scan : BodyScan) (iter : DaemonMap → DaemonMap)
    (kwScan cmdScan : String → List String) (path content now : String)
    (h1 : (extractYamlFrontmatter content).1 ≠ "")
    (h2 : yamlParse (extractYamlFrontmatter content).1 = some fmScenarioA)
    (hcall : scan.call (extractYamlFrontmatter content).2 = [])
    (hclient : scan.client (extractYamlFrontmatter content).2 = [])
    (hcli : scan.cli (extractYamlFrontmatter content).2 = [])
    (htables : scan.tables (extractYamlFrontmatter content).2 = [])
    (hiter : ∀ l : DaemonMap, (iter l).Perm l)
    (hbody : (extractYamlFrontmatter content).2 ≠ "") :
    ∃ skill, parseClaudeCode yamlParse scan iter kwScan cmdScan path content now = .ok skill ∧
      skill.name.confidence = .High ∧ skill.name.value = "foo-bar" ∧
      skill.daemons = [toImportedDaemon ("mail", [ImportedField.high "send" .Frontmatter])] ∧
      skill.instructions_content.value ≠ "" ∧
      (analyzeQuality skill none).score ≤ 62 ∧
      ((analyzeQuality skill none).grade = .D ∨ (analyzeQuality skill none).grade = .F) := by
  have hmap : extractDaemonMap scan ["mail.send"] ((extractYamlFrontmatter content).2)
      = [("mail", [ImportedField.high "send" .Frontmatter])] := by
    unfold extractDaemonMap
    rw [hcall, hclient, hcli, htables]
    rfl
  have hone : iter [("mail", [ImportedField.high "send" .Frontmatter])]
      = [("mail", [ImportedField.high "send" .Frontmatter])] :=
    List.perm_singleton.mp (hiter _)
  have hdaemons : extractDaemonsFromTools iter scan ["mail.send"]
      ((extractYamlFrontmatter content).2)
      = [toImportedDaemon ("mail", [ImportedField.high "send" .Frontmatter])] := by
    unfold extractDaemonsFromTools
    rw [hmap, hone]
    rfl
  have hs62 : (analyzeQuality (scenarioASkill ((extractYamlFrontmatter content).2)
      (extractTriggers [] ((extractYamlFrontmatter content).2) kwScan cmdScan) path now)
      none).score ≤ 62 := by
    rw [analyzeQuality_score, analyzeQuality_breakdown]
    unfold QualityBreakdown.overall
    simp only []
    have hi := instructionsScore_le (scenarioASkill ((extractYamlFrontmatter content).2)
      (extractTriggers [] ((extractYamlFrontmatter content).2) kwScan cmdScan) path now)
    have ht := triggerScore_le (scenarioASkill ((extractYamlFrontmatter content).2)
      (extractTriggers [] ((extractYamlFrontmatter content).2) kwScan cmdScan) path now)
    have hm : metadataScore (scenarioASkill ((extractYamlFrontmatter content).2)
        (extractTriggers [] ((extractYamlFrontmatter content).2) kwScan cmdScan) path now)
        = 55 := rfl
    have hd : daemonScore (scenarioASkill ((extractYamlFrontmatter content).2)
        (extractTriggers [] ((extractYamlFrontmatter content).2) kwScan cmdScan) path now)
        none = 40 := rfl
    have hc : configScore (scenarioASkill ((extractYamlFrontmatter content).2)
        (extractTriggers [] ((extractYamlFrontmatter content).2) kwScan cmdScan) path now)
        none = 20 := rfl
    rw [hm, hd, hc]
    have hnum : 55 * 25 + 40 * 30
        + instructionsScore (scenarioASkill ((extractYamlFrontmatter content).2)
            (extractTriggers [] ((extractYamlFrontmatter content).2) kwScan cmdScan) path now) * 25
        + triggerScore (scenarioASkill ((extractYamlFrontmatter content).2)
            (extractTriggers [] ((extractYamlFrontmatter content).2) kwScan cmdScan) path now) * 10
        + 20 * 10 ≤ 6275 := by omega
    have h62 : (55 * 25 + 40 * 30
        + instructionsScore (scenarioASkill ((extractYamlFrontmatter content).2)
            (extractTriggers [] ((extractYamlFrontmatter content).2) kwScan cmdScan) path now) * 25
        + triggerScore (scenarioASkill ((extractYamlFrontmatter content).2)
            (extractTriggers [] ((extractYamlFrontmatter content).2) kwScan cmdScan) path now) * 10
        + 20 * 10) / 100 ≤ 6275 / 100 := Nat.div_le_div_right hnum
    simpa using h62
  refine ⟨scenarioASkill ((extractYamlFrontmatter content).2)
      (extractTriggers [] ((extractYamlFrontmatter content).2) kwScan cmdScan) path now,
    ?_, rfl, rfl, rfl, hbody, hs62, ?_⟩
  · simp only [parseClaudeCode, h1, h2, Option.getD, fmScenarioA, hdaemons, scenarioASkill,
      ne_eq, not_false_iff, if_true, ite_not, if_neg]
    try rfl
  · rw [analyzeQuality_grade]
    exact fromScore_below_seventy _ (by omega)

/-- Witness for C5 amended at the concrete Scenario A document. -/
theorem C5_amended_scenarioA_witness :
    ∃ skill, parseClaudeCode (fun _ => some fmScenarioA) emptyScan id (fun _ => []) (fun _ => [])
        "skills/foo-bar/SKILL.md" contentScenarioA "t0" = .ok skill ∧
      skill.name.confidence = .High ∧ skill.name.value = "foo-bar" ∧
      skill.daemons = [toImportedDaemon ("mail", [ImportedField.high "send" .Frontmatter])] ∧
      skill.instructions_content.value ≠ "" ∧
      (analyzeQuality skill none).score ≤ 62 ∧
      ((analyzeQuality skill none).grade = .D ∨ (analyzeQuality skill none).grade = .F) :=
  C5_amended_scenarioA (fun _ => some fmScenarioA) emptyScan id (fun _ => []) (fun _ => [])
    "skills/foo-bar/SKILL.md" contentScenarioA "t0"
    (by decide) rfl rfl rfl rfl rfl (fun l => List.Perm.refl l) (by decide)

/-- C3: demonstration of the idempotence failure.  The daemon list of a
parsed UIR is emitted in `HashMap::into_iter` order, which is unspecified
(randomly seeded per map), so two runs of the parser on the SAME unchanged
two-daemon document may legitimately deliver the two admissible orders
`[gmail, slack]` and `[slack, gmail]` (both are permutations of the map
entries, witnessed by the third conjunct).  The two runs then produce
different `daemons_hash` and combined-hash streams, and re-importing the
unchanged source is classified source-newer with one daemons diff instead of
in-sync with zero diffs. -/
theorem C3_hashmap_iteration_breaks_fingerprint_idempotence :
    (parseClaudeCode (fun _ => some fmTwoDaemons) emptyScan id (fun _ => []) (fun _ => [])
        "skills/messaging/SKILL.md" contentTwoDaemons "t1").toOption
      = some (skillTwoDaemons [gmailDaemonC3, slackDaemonC3] "t1") ∧
    (parseClaudeCode (fun _ => some fmTwoDaemons) emptyScan List.reverse (fun _ => []) (fun _ => [])
        "skills/messaging/SKILL.md" contentTwoDaemons "t2").toOption
      = some (skillTwoDaemons [slackDaemonC3, gmailDaemonC3] "t2") ∧
    (∀ l : DaemonMap, (List.reverse l).Perm l) ∧
    (SkillFingerprint.fromImported (skillTwoDaemons [gmailDaemonC3, slackDaemonC3] "t1")
        "t1").daemons_hash
      ≠ (SkillFingerprint.fromImported (skillTwoDaemons [slackDaemonC3, gmailDaemonC3] "t2")
        "t2").daemons_hash ∧
    (SkillFingerprint.fromImported (skillTwoDaemons [gmailDaemonC3, slackDaemonC3] "t1")
        "t1").combined_hash
      ≠ (SkillFingerprint.fromImported (skillTwoDaemons [slackDaemonC3, gmailDaemonC3] "t2")
        "t2").combined_hash ∧
    (analyzeSync (skillTwoDaemons [slackDaemonC3, gmailDaemonC3] "t2")
        (some (SkillFingerprint.fromImported (skillTwoDaemons [gmailDaemonC3, slackDaemonC3] "t1")
          "t1")) none "t2").status = .SourceNewer ∧
    (analyzeSync (skillTwoDaemons [slackDaemonC3, gmailDaemonC3] "t2")
        (some (SkillFingerprint.fromImported (skillTwoDaemons [gmailDaemonC3, slackDaemonC3] "t1")
          "t1")) none "t2").diffs
      = [{ field := "daemons", change_type := .Modified,
           original_value := some ("[changed]"),
           current_value := some ("2 daemons"),
           significance := .Critical }] :=
  ⟨by decide, by decide, fun l => List.reverse_perm l, by decide, by decide, by decide, by decide⟩

theorem lookupDM_nil (k : String) : lookupDM [] k = none := rfl

theorem lookupDM_entryPush_same (m : DaemonMap) (k : String) (v : ImportedField String) :
    lookupDM (entryPush m k v) k = some (entryListDM m k ++ [v]) := by
  induction m with
  | nil => simp [entryPush, lookupDM, entryListDM, List.find?]
  | cons kv rest ih =>
    obtain ⟨k₀, vs⟩ := kv
    by_cases hk : k₀ = k
    · subst hk
      simp [entryPush, lookupDM, entryListDM]
    · simp only [entryPush, if_neg hk]
      have hb : (k₀ == k) = false := by simpa using hk
      simp only [lookupDM, List.find?, hb] at ih ⊢
      simpa [entryListDM, lookupDM, List.find?, hb] using ih

theorem lookupDM_entryPush_other (m : DaemonMap) (k k' : String) (v : ImportedField String)
    (h : k' ≠ k) : lookupDM (entryPush m k v) k' = lookupDM m k' := by
  induction m with
  | nil =>
    have hb : (k == k') = false := by simpa using fun he => h he.symm
    simp [entryPush, lookupDM, List.find?, hb]
  | cons kv rest ih =>
    obtain ⟨k₀, vs⟩ := kv
    by_cases hk : k₀ = k
    · subst hk
      have hb : (k₀ == k') = false := by simpa using fun he => h he.symm
      simp [entryPush, lookupDM, List.find?, hb]
    · simp only [entryPush, if_neg hk]
      by_cases hk' : k₀ = k'
      · subst hk'
        simp [lookupDM, List.find?]
      · have hb : (k₀ == k') = false := by simpa using hk'
        simp only [lookupDM, List.find?, hb] at ih ⊢
        exact ih

theorem lookupDM_entryPushIfAbsent_same (m : DaemonMap) (k : String) (v : ImportedField String) :
    lookupDM (entryPushIfAbsent m k v) k =
      some (if (entryListDM m k).any (fun f => f.value == v.value) then entryListDM m k
            else entryListDM m k ++ [v]) := by
  induction m with
  | nil => simp [entryPushIfAbsent, lookupDM, entryListDM, List.find?]
  | cons kv rest ih =>
    obtain ⟨k₀, vs⟩ := kv
    by_cases hk : k₀ = k
    · subst hk
      by_cases ha : vs.any (fun f => f.value == v.value)
      · simp [entryPushIfAbsent, ha, lookupDM, entryListDM, List.find?]
      · simp [entryPushIfAbsent, ha, lookupDM, entryListDM, List.find?]
    · simp only [entryPushIfAbsent, if_neg hk]
      have hb : (k₀ == k) = false := by simpa using hk
      simp only [lookupDM, entryListDM, List.find?, hb] at ih ⊢
      simpa using ih

theorem lookupDM_entryPushIfAbsent_other (m : DaemonMap) (k k' : String)
    (v : ImportedField String) (h : k' ≠ k) :
    lookupDM (entryPushIfAbsent m k v) k' = lookupDM m k' := by
  induction m with
  | nil =>
    have hb : (k == k') = false := by simpa using fun he => h he.symm
    simp [entryPushIfAbsent, lookupDM, List.find?, hb]
  | cons kv rest ih =>
    obtain ⟨k₀, vs⟩ := kv
    by_cases hk : k₀ = k
    · subst hk
      have hb : (k₀ == k') = false := by simpa using fun he => h he.symm
      by_cases ha : vs.any (fun f => f.value == v.value)
      · simp [entryPushIfAbsent, ha, lookupDM, List.find?, hb]
      · simp [entryPushIfAbsent, ha, lookupDM, List.find?, hb]
    · simp only [entryPushIfAbsent, if_neg hk]
      by_cases hk' : k₀ = k'
      · subst hk'
        simp [lookupDM, List.find?]
      · have hb : (k₀ == k') = false := by simpa using hk'
        simp only [lookupDM, List.find?, hb] at ih ⊢
        exact ih

theorem entryListDM_entryPush_same (m : DaemonMap) (k : String) (v : ImportedField String) :
    entryListDM (entryPush m k v) k = entryListDM m k ++ [v] := by
  simp [entryListDM, lookupDM_entryPush_same]

theorem entryListDM_entryPush_other (m : DaemonMap) (k k' : String) (v : ImportedField String)
    (h : k' ≠ k) : entryListDM (entryPush m k v) k' = entryListDM m k' := by
  simp [entryListDM, lookupDM_entryPush_other m k k' v h]

theorem entryListDM_entryPushIfAbsent_same (m : DaemonMap) (k : String)
    (v : ImportedField String) :
    entryListDM (entryPushIfAbsent m k v) k =
      (if (entryListDM m k).any (fun f => f.value == v.value) then entryListDM m k
       else entryListDM m k ++ [v]) := by
  simp [entryListDM, lookupDM_entryPushIfAbsent_same]

theorem entryListDM_entryPushIfAbsent_other (m : DaemonMap) (k k' : String)
    (v : ImportedField String) (h : k' ≠ k) :
    entryListDM (entryPushIfAbsent m k v) k' = entryListDM m k' := by
  simp [entryListDM, lookupDM_entryPushIfAbsent_other m k k' v h]

theorem keysDM_entryPush (m : DaemonMap) (k : String) (v : ImportedField String) :
    keysDM (entryPush m k v) = if k ∈ keysDM m then keysDM m else keysDM m ++ [k] := by
  induction m with
  | nil => simp [entryPush, keysDM]
  | cons kv rest ih =>
    obtain ⟨k₀, vs⟩ := kv
    by_cases hk : k₀ = k
    · subst hk
      simp [entryPush, keysDM]
    · simp only [entryPush, if_neg hk, keysDM, List.map_cons] at ih ⊢
      rw [ih]
      by_cases hmem : k ∈ List.map Prod.fst rest
      · simp [hmem, hk, List.mem_cons]
      · simp [hmem, hk, List.mem_cons, Ne.symm hk]

theorem keysDM_entryPushIfAbsent (m : DaemonMap) (k : String) (v : ImportedField String) :
    keysDM (entryPushIfAbsent m k v)
      = if k ∈ keysDM m then keysDM m else keysDM m ++ [k] := by
  induction m with
  | nil => simp [entryPushIfAbsent, keysDM]
  | cons kv rest ih =>
    obtain ⟨k₀, vs⟩ := kv
    by_cases hk : k₀ = k
    · subst hk
      by_cases ha : vs.any (fun f => f.value == v.value) <;>
        simp [entryPushIfAbsent, ha, keysDM]
    · simp only [entryPushIfAbsent, if_neg hk, keysDM, List.map_cons] at ih ⊢
      rw [ih]
      by_cases hmem : k ∈ List.map Prod.fst rest
      · simp [hmem, hk, List.mem_cons]
      · simp [hmem, hk, List.mem_cons, Ne.symm hk]

theorem nodup_keysDM_entryPush (m : DaemonMap) (k : String) (v : ImportedField String)
    (h : (keysDM m).Nodup) : (keysDM (entryPush m k v)).Nodup := by
  rw [keysDM_entryPush]
  split_ifs with hm
  · exact h
  · simp [List.nodup_append, h, List.disjoint_singleton, hm]

theorem nodup_keysDM_entryPushIfAbsent (m : DaemonMap) (k : String) (v : ImportedField String)
    (h : (keysDM m).Nodup) : (keysDM (entryPushIfAbsent m k v)).Nodup := by
  rw [keysDM_entryPushIfAbsent]
  split_ifs with hm
  · exact h
  · simp [List.nodup_append, h, List.disjoint_singleton, hm]

theorem mem_keysDM_entryPush (m : DaemonMap) (k k' : String) (v : ImportedField String)
    (h : k' ∈ keysDM (entryPush m k v)) : k' ∈ keysDM m ∨ k' = k := by
  rw [keysDM_entryPush] at h
  split_ifs at h with hm
  · exact Or.inl h
  · rcases List.mem_append.mp h with h | h
    · exact Or.inl h
    · exact Or.inr (List.mem_singleton.mp h)

theorem mem_keysDM_entryPushIfAbsent (m : DaemonMap) (k k' : String) (v : ImportedField String)
    (h : k' ∈ keysDM (entryPushIfAbsent m k v)) : k' ∈ keysDM m ∨ k' = k := by
  rw [keysDM_entryPushIfAbsent] at h
  split_ifs at h with hm
  · exact Or.inl h
  · rcases List.mem_append.mp h with h | h
    · exact Or.inl h
    · exact Or.inr (List.mem_singleton.mp h)

theorem foldl_preserve {α : Type} (P : DaemonMap → Prop) (step : DaemonMap → α → DaemonMap)
    (h : ∀ m a, P m → P (step m a)) :
    ∀ (l : List α) (m : DaemonMap), P m → P (l.foldl step m) := by
  intro l
  induction l with
  | nil => intro m hm; exact hm
  | cons a as ih => intro m hm; exact ih _ (h m a hm)

theorem extractDaemonMap_scan_preserve (P : DaemonMap → Prop)
    (hpushIf : ∀ (m : DaemonMap) (k : String) (v : ImportedField String),
      isValidDaemonName k = true → P m → P (entryPushIfAbsent m k v))
    (scan : BodyScan) (tools : List String) (body : String)
    (h0 : P (tools.foldl insertTool [])) : P (extractDaemonMap scan tools body) := by
  unfold extractDaemonMap
  apply foldl_preserve _ _ ?tables _ _
    (foldl_preserve _ _ ?cli _ _
      (foldl_preserve _ _ ?client _ _
        (foldl_preserve _ _ ?call _ _ h0)))
  case call =>
    intro m p hm
    dsimp only []
    split_ifs with hv
    · exact hpushIf _ _ _ hv hm
    · exact hm
  case client =>
    intro m p hm
    dsimp only []
    split_ifs with hv
    · exact hpushIf _ _ _ hv hm
    · exact hm
  case cli =>
    intro m p hm
    dsimp only []
    split_ifs with hskip hv
    · exact hm
    · exact hpushIf _ _ _ hv hm
    · exact hm
  case tables =>
    intro m t hm
    dsimp only []
    split_ifs with hv
    · exact foldl_preserve _ _ (fun m₁ mn hm₁ => hpushIf m₁ t.1 _ hv hm₁) _ _ hm
    · exact hm

theorem insertTool_preserve (P : DaemonMap → Prop)
    (hpush : ∀ (m : DaemonMap) (k : String) (v : ImportedField String),
      isValidDaemonName k = true → P m → P (entryPush m k v))
    (m : DaemonMap) (t : String) (hm : P m) : P (insertTool m t) := by
  unfold insertTool
  cases hs : splitOnceChar t '.' with
  | none => exact hm
  | some p =>
    dsimp only []
    split_ifs with hv
    · exact hpush _ _ _ hv hm
    · exact hm

theorem valid_keys_extractDaemonMap (scan : BodyScan) (tools : List String) (body : String) :
    ∀ k ∈ keysDM (extractDaemonMap scan tools body), isValidDaemonName k = true := by
  apply extractDaemonMap_scan_preserve
    (fun m => ∀ k ∈ keysDM m, isValidDaemonName k = true)
  · intro m k v hv hm k₁ hk₁
    rcases mem_keysDM_entryPushIfAbsent m k k₁ v hk₁ with h | h
    · exact hm k₁ h
    · exact h ▸ hv
  · apply foldl_preserve (fun m => ∀ k ∈ keysDM m, isValidDaemonName k = true)
    · intro m t hm
      exact insertTool_preserve (fun m => ∀ k ∈ keysDM m, isValidDaemonName k = true)
        (fun m₁ k v hv hm₁ k₁ hk₁ =>
          (mem_keysDM_entryPush m₁ k k₁ v hk₁).elim (hm₁ k₁) (fun h => h ▸ hv))
        m t hm
    · intro k hk
      simp [keysDM] at hk

theorem nodup_keys_extractDaemonMap (scan : BodyScan) (tools : List String) (body : String) :
    (keysDM (extractDaemonMap scan tools body)).Nodup := by
  apply extractDaemonMap_scan_preserve (fun m => (keysDM m).Nodup)
    (fun m k v _ hm => nodup_keysDM_entryPushIfAbsent m k v hm)
  apply foldl_preserve (fun m => (keysDM m).Nodup)
  · intro m t hm
    exact insertTool_preserve (fun m => (keysDM m).Nodup)
      (fun m₁ k v _ hm₁ => nodup_keysDM_entryPush m₁ k v hm₁) m t hm
  · simp [keysDM]

theorem entryListDM_foldl_insertTool (svc : String) (hv : isValidDaemonName svc = true) :
    ∀ (tools : List String) (m : DaemonMap),
      entryListDM (tools.foldl insertTool m) svc
        = entryListDM m svc
          ++ ((structuredPairs tools).filter (fun p => p.1 == svc)).map
              (fun p => ImportedField.high p.2 .Frontmatter) := by
  intro tools
  induction tools with
  | nil => intro m; simp [structuredPairs]
  | cons t ts ih =>
    intro m
    simp only [List.foldl_cons]
    rw [ih]
    cases hs : splitOnceChar t '.' with
    | none =>
      simp [insertTool, hs, structuredPairs, List.filterMap_cons]
    | some p =>
      by_cases hp : p.1 = svc
      · have hins : insertTool m t = entryPush m p.1 (ImportedField.high p.2 .Frontmatter) := by
          simp [insertTool, hs, hp ▸ hv]
        rw [hins, hp, entryListDM_entryPush_same]
        have : (p.1 == svc) = true := by simpa using hp
        simp [structuredPairs, List.filterMap_cons, hs, this, hp]
      · have hex : entryListDM (insertTool m t) svc = entryListDM m svc := by
          unfold insertTool
          rw [hs]
          dsimp only []
          split_ifs with hvp
          · exact entryListDM_entryPush_other m p.1 svc _ (fun he => hp he.symm)
          · rfl
        rw [hex]
        have : (p.1 == svc) = false := by simpa using hp
        simp [structuredPairs, List.filterMap_cons, hs, this]

theorem methodOnceHigh_entryPushIfAbsent (m : DaemonMap) (svc meth k : String)
    (v : ImportedField String) (h : methodOnceHigh m svc meth) :
    methodOnceHigh (entryPushIfAbsent m k v) svc meth := by
  obtain ⟨hcount, hhigh⟩ := h
  by_cases hk : k = svc
  · subst hk
    unfold methodOnceHigh
    rw [entryListDM_entryPushIfAbsent_same]
    by_cases hvv : v.value = meth
    · have hany : (entryListDM m k).any (fun f => f.value == v.value) = true := by
        have hpos : 0 < (entryListDM m k).countP (fun f => f.value == meth) := by omega
        obtain ⟨f, hf, hfm⟩ := List.countP_pos_iff.mp hpos
        exact List.any_eq_true.mpr ⟨f, hf, by rw [hvv]; exact hfm⟩
      rw [if_pos hany]
      exact ⟨hcount, hhigh⟩
    · split_ifs with hany
      · exact ⟨hcount, hhigh⟩
      · constructor
        · rw [List.countP_append, hcount]
          have : (v.value == meth) = false := by simpa using hvv
          simp [this]
        · intro f hf hfv
          rcases List.mem_append.mp hf with hf | hf
          · exact hhigh f hf hfv
          · rw [List.mem_singleton] at hf
            subst hf
            exact absurd hfv hvv
  · unfold methodOnceHigh at *
    rw [entryListDM_entryPushIfAbsent_other m k svc v (fun he => hk he.symm)]
    exact ⟨hcount, hhigh⟩

theorem methodOnceHigh_extractDaemonMap (scan : BodyScan) (tools : List String) (body : String)
    (svc meth : String) (hv : isValidDaemonName svc = true)
    (hcount : (structuredPairs tools).countP (fun p => p.1 == svc && p.2 == meth) = 1) :
    methodOnceHigh (extractDaemonMap scan tools body) svc meth := by
  apply extractDaemonMap_scan_preserve (fun m => methodOnceHigh m svc meth)
    (fun m k v _ hm => methodOnceHigh_entryPushIfAbsent m svc meth k v hm)
  unfold methodOnceHigh
  rw [entryListDM_foldl_insertTool svc hv tools []]
  have hnil : entryListDM [] svc = [] := rfl
  rw [hnil]
  simp only [List.nil_append]
  constructor
  · rw [List.countP_map, List.countP_filter]
    rw [← hcount]
    apply List.countP_congr
    intro p _
    simp [Function.comp, ImportedField.high, Bool.and_comm]
  · intro f hf _
    obtain ⟨p, _, hfp⟩ := List.mem_map.mp hf
    rw [← hfp]
    rfl

theorem lookupDM_mem_keys (m : DaemonMap) (k : String)
    (vs : List (ImportedField String)) (h : lookupDM m k = some vs) : k ∈ keysDM m := by
  unfold lookupDM at h
  obtain ⟨kv, hfind, hsnd⟩ := Option.map_eq_some'.mp h
  have hkv := List.find?_some hfind
  have hmem := List.mem_of_find?_eq_some hfind
  have : kv.1 = k := by simpa using hkv
  exact this ▸ List.mem_map_of_mem Prod.fst hmem

theorem mem_nodup_lookupDM (m : DaemonMap) (kv : String × List (ImportedField String))
    (hnd : (keysDM m).Nodup) (hmem : kv ∈ m) : lookupDM m kv.1 = some kv.2 := by
  induction m with
  | nil => cases hmem
  | cons kv₀ rest ih =>
    rcases List.mem_cons.mp hmem with h | h
    · subst h
      simp [lookupDM, List.find?]
    · have hnd' : (keysDM rest).Nodup := (List.nodup_cons.mp hnd).2
      have hne : kv₀.1 ≠ kv.1 := by
        intro he
        have : kv₀.1 ∈ keysDM rest := he ▸ List.mem_map_of_mem Prod.fst h
        exact (List.nodup_cons.mp hnd).1 this
      have hb : (kv₀.1 == kv.1) = false := by simpa using hne
      simp only [lookupDM, List.find?, hb]
      exact ih hnd' h

/-- C7: method deduplication during extraction.  If the structured tools
list declares the service method `svc.meth` exactly once and a body pattern
(the `fgp call` scan) also recovers the same pair, then the resulting
dependency list contains exactly one daemon named `svc`, that daemon lists
the method `meth` exactly once, and that single occurrence carries High
confidence — the higher of the two contributing confidences (High from the
structured declaration, Medium from the pattern extraction). -/
theorem C7_method_dedup_higher_confidence (iter : DaemonMap → DaemonMap) (scan : BodyScan)
    (tools : List String) (body : String) (svc meth : String)
    (hiter : ∀ l : DaemonMap, (iter l).Perm l)
    (hv : isValidDaemonName svc = true)
    (hcount : (structuredPairs tools).countP (fun p => p.1 == svc && p.2 == meth) = 1)
    (_hpat : (svc, meth) ∈ scan.call body) :
    ((extractDaemonsFromTools iter scan tools body).countP
      (fun d => d.name.value == svc)) = 1 ∧
    ∀ d ∈ extractDaemonsFromTools iter scan tools body, d.name.value = svc →
      d.methods.countP (fun f => f.value == meth) = 1 ∧
      ∀ f ∈ d.methods, f.value = meth → f.confidence = .High := by
  have hM : methodOnceHigh (extractDaemonMap scan tools body) svc meth :=
    methodOnceHigh_extractDaemonMap scan tools body svc meth hv hcount
  have hnd : (keysDM (extractDaemonMap scan tools body)).Nodup :=
    nodup_keys_extractDaemonMap scan tools body
  have hmemk : svc ∈ keysDM (extractDaemonMap scan tools body) := by
    obtain ⟨hcnt, _⟩ := hM
    cases hl : lookupDM (extractDaemonMap scan tools body) svc with
    | none =>
      exfalso
      have : entryListDM (extractDaemonMap scan tools body) svc = [] := by
        simp [entryListDM, hl]
      rw [this] at hcnt
      simp at hcnt
    | some vs => exact lookupDM_mem_keys _ _ _ hl
  constructor
  · unfold extractDaemonsFromTools
    rw [List.countP_map]
    have h1 : List.countP ((fun d => d.name.value == svc) ∘ toImportedDaemon)
        (iter (extractDaemonMap scan tools body))
        = List.countP (fun kv => kv.1 == svc) (iter (extractDaemonMap scan tools body)) := by
      apply List.countP_congr
      intro kv _
      rfl
    rw [h1, (hiter _).countP_eq]
    have h2 : List.countP (fun kv => kv.1 == svc) (extractDaemonMap scan tools body)
        = List.countP (fun k => k == svc) (keysDM (extractDaemonMap scan tools body)) := by
      unfold keysDM
      rw [List.countP_map]
      rfl
    rw [h2]
    have h3 : List.countP (fun k => k == svc) (keysDM (extractDaemonMap scan tools body))
        = List.count svc (keysDM (extractDaemonMap scan tools body)) := rfl
    rw [h3]
    exact List.count_eq_one_of_mem hnd hmemk
  · intro d hd hdname
    unfold extractDaemonsFromTools at hd
    obtain ⟨kv, hkv, hdkv⟩ := List.mem_map.mp hd
    have hkvM : kv ∈ extractDaemonMap scan tools body := (hiter _).mem_iff.mp hkv
    have hk1 : kv.1 = svc := by
      rw [← hdname, ← hdkv]
      rfl
    have hlk : lookupDM (extractDaemonMap scan tools body) kv.1 = some kv.2 :=
      mem_nodup_lookupDM _ kv hnd hkvM
    have hentry : entryListDM (extractDaemonMap scan tools body) svc = kv.2 := by
      rw [← hk1]
      simp [entryListDM, hlk]
    have hmethods : d.methods = kv.2 := by
      rw [← hdkv]
      rfl
    obtain ⟨hcnt, hhigh⟩ := hM
    rw [hentry] at hcnt hhigh
    rw [hmethods]
    exact ⟨hcnt, hhigh⟩

/-- Witness for C7 at a concrete extraction: tools `["mail.send"]` and an
`fgp call mail.send` body pattern produce one `mail` daemon with `send`
once, at High confidence. -/
theorem C7_method_dedup_higher_confidence_witness :
    ((extractDaemonsFromTools id scanCallMailSend ["mail.send"] "fgp call mail.send").countP
      (fun d => d.name.value == "mail")) = 1 ∧
    ∀ d ∈ extractDaemonsFromTools id scanCallMailSend ["mail.send"] "fgp call mail.send",
      d.name.value = "mail" →
      d.methods.countP (fun f => f.value == "send") = 1 ∧
      ∀ f ∈ d.methods, f.value = "send" → f.confidence = .High :=
  C7_method_dedup_higher_confidence id scanCallMailSend ["mail.send"] "fgp call mail.send"
    "mail" "send" (fun l => List.Perm.refl l) (by decide) (by decide) (by decide)

/-- C8: deny-list rejection.  Every daemon name in the extraction result
passed `is_valid_daemon_name` — names recovered from any source (structured
tools list or loose body patterns) that match the deny-list of generic words
never appear in the dependency list; in particular `json` is deny-listed. -/
theorem C8_denylist_rejection (iter : DaemonMap → DaemonMap) (scan : BodyScan)
    (tools : List String) (body : String)
    (hiter : ∀ l : DaemonMap, (iter l).Perm l) :
    (∀ d ∈ extractDaemonsFromTools iter scan tools body,
      isValidDaemonName d.name.value = true) ∧
    isValidDaemonName "json" = false := by
  constructor
  · intro d hd
    unfold extractDaemonsFromTools at hd
    obtain ⟨kv, hkv, hdkv⟩ := List.mem_map.mp hd
    have hkvM : kv ∈ extractDaemonMap scan tools body := (hiter _).mem_iff.mp hkv
    have hk : kv.1 ∈ keysDM (extractDaemonMap scan tools body) :=
      List.mem_map_of_mem Prod.fst hkvM
    have hvalid := valid_keys_extractDaemonMap scan tools body kv.1 hk
    rw [← hdkv]
    exact hvalid
  · decide

/-- Witness for C8 at a concrete extraction in which `json` is recovered
only via the loose `fgp call` pattern and a `json.load` tool entry. -/
theorem C8_denylist_rejection_witness :
    (∀ d ∈ extractDaemonsFromTools id
        { call := fun _ => [("json", "load")], client := fun _ => [], cli := fun _ => [],
          tables := fun _ => [] } ["json.parse", "mail.send"] "fgp call json.load",
      isValidDaemonName d.name.value = true) ∧
    isValidDaemonName "json" = false :=
  C8_denylist_rejection id
    { call := fun _ => [("json", "load")], client := fun _ => [], cli := fun _ => [],
      tables := fun _ => [] } ["json.parse", "mail.send"] "fgp call json.load"
    (fun l => List.Perm.refl l)
